import Mathlib

/-!
Verification development for the BrightID node's data/rules layer
(`web_services/foxx/brightid_1.0.0/db.js`).

The ArangoDB collections are embedded as lists of records inside a `DB`
structure.  Document keys, which ArangoDB generates as unique strings, are
modelled by a fresh-key counter `nextKey` (`Nat`); group keys (random strings
in the source) are drawn from the same counter.  The source stores user
references as `"users/" ++ key` and group references as `"groups/" ++ key` /
`"newGroups/" ++ key` and strips or rewrites these bijective namespace
prefixes (`replace("users/", "")`, `replace('newGroups', 'groups')`); the
model stores bare keys and represents the namespace by which collection or
field a key sits in, so prefix stripping is the identity and the
`newGroups -> groups` rewrite is the move of an edge from the forming
membership collection to the established one.  AQL `SORT`, `DISTINCT`,
`UNION_DISTINCT`, `COLLECT WITH COUNT` and lodash `_.intersection` are
modelled by `List.insertionSort`, `List.dedup`, counting and filtering.
JavaScript `throw` is modelled by `Except`.
-/

namespace BrightId

/-- A document of the `connections` or `removed` edge collections:
`{_from, _to, timestamp}` plus its document key. -/
structure ConnEdge where
  key : Nat
  fromId : String
  toId : String
  timestamp : Int
  deriving DecidableEq

/-- A document of `usersInGroups` / `usersInNewGroups`: `_from` is a user key,
`_to` a group key (the source prefixes it with the group collection name). -/
structure MembershipEdge where
  key : Nat
  fromId : String
  toId : Nat
  timestamp : Int
  deriving DecidableEq

/-- A document of `groups` / `newGroups`. -/
structure Group where
  key : Nat
  score : Int
  isNew : Bool
  timestamp : Int
  founders : List String
  deriving DecidableEq

/-- A document of `users`. -/
structure User where
  key : String
  score : Int
  deriving DecidableEq

/-- A document of `contexts` (only the field the claims touch). -/
structure Context where
  key : String
  totalSponsorships : Int
  deriving DecidableEq

/-- A document of `sponsorships`: `{_from: user, _to: context}`. -/
structure Sponsorship where
  fromId : String
  toId : String
  deriving DecidableEq

/-- A document of a context's account-id collection, as read and written by
`addId` / `revocableIds`: `{user, account, timestamp}` plus its key. -/
structure AccountLink where
  key : Nat
  user : String
  account : String
  timestamp : Int
  deriving DecidableEq

/-- The node's database: one list per ArangoDB collection, plus the fresh-key
counter standing in for ArangoDB's unique key generation. -/
structure DB where
  nextKey : Nat := 0
  connections : List ConnEdge := []
  removed : List ConnEdge := []
  groups : List Group := []
  newGroups : List Group := []
  usersInGroups : List MembershipEdge := []
  usersInNewGroups : List MembershipEdge := []
  users : List User := []
  contexts : List Context := []
  sponsorships : List Sponsorship := []
  deriving DecidableEq

/-- The empty database. -/
def emptyDB : DB := {}

/-- The filter of `allEdges` (db.js 21-29): the records of an edge collection
that mention the unordered pair `{u1, u2}`. -/
def pairPred (u1 u2 : String) (e : ConnEdge) : Bool :=
  decide ((e.fromId = u1 ∧ e.toId = u2) ∨ (e.fromId = u2 ∧ e.toId = u1))

/-- The unsorted record set of `allEdges` for a pair. -/
def pairEdges (edges : List ConnEdge) (u1 u2 : String) : List ConnEdge :=
  edges.filter (pairPred u1 u2)

/-- `sort i.timestamp desc` ordering of `allEdges`. -/
def tsDesc (a b : ConnEdge) : Prop := b.timestamp ≤ a.timestamp

instance : DecidableRel tsDesc := fun a b =>
  inferInstanceAs (Decidable (b.timestamp ≤ a.timestamp))

instance : IsTotal ConnEdge tsDesc := ⟨fun a b => le_total b.timestamp a.timestamp⟩

instance : IsTrans ConnEdge tsDesc := ⟨fun _ _ _ h1 h2 => le_trans h2 h1⟩

/-- `allEdges(collection, user1, user2)` (db.js 21-29): the pair's records,
sorted by timestamp descending.  The source projects each record to
`{key, timestamp}`; the model keeps the whole record, of which only those two
fields are ever consumed. -/
def allEdges (edges : List ConnEdge) (u1 u2 : String) : List ConnEdge :=
  List.insertionSort tsDesc (pairEdges edges u1 u2)

/-- `removeByKeys(collection, keys)` (db.js 31-37). -/
def removeByKeys (edges : List ConnEdge) (keys : List Nat) : List ConnEdge :=
  edges.filter (fun e => decide (e.key ∉ keys))

/-- The guard `(! added || ! added.length || timestamp > added[0].timestamp)`
of db.js 237: vacuously true on an empty list, otherwise a strict comparison
against the top (most recent) record. -/
def isNewerThanTop (timestamp : Int) (edges : List ConnEdge) : Bool :=
  match edges with
  | [] => true
  | e :: _ => decide (e.timestamp < timestamp)

/-- The `insert {_from, _to, timestamp} in collection` of db.js 239-245;
`isConn` selects `connectionsColl` (true) or `removedColl` (false). -/
def insertConnEdge (isConn : Bool) (user1 user2 : String) (timestamp : Int)
    (db : DB) : DB :=
  let e : ConnEdge := ⟨db.nextKey, user1, user2, timestamp⟩
  if isConn then
    { db with connections := db.connections ++ [e], nextKey := db.nextKey + 1 }
  else
    { db with removed := db.removed ++ [e], nextKey := db.nextKey + 1 }

/-- `updateAndCleanConnections(collection, key1, key2, timestamp)`
(db.js 229-254).  `isConn` selects which collection receives the insert. -/
def updateAndCleanConnections (isConn : Bool) (key1 key2 : String)
    (timestamp : Int) (db : DB) : DB :=
  let added := allEdges db.connections key1 key2
  let removedE := allEdges db.removed key1 key2
  if isNewerThanTop timestamp added && isNewerThanTop timestamp removedE then
    let db1 := insertConnEdge isConn key1 key2 timestamp db
    let db2 :=
      if added.isEmpty then db1
      else { db1 with connections := removeByKeys db1.connections (added.map (·.key)) }
    if removedE.isEmpty then db2
    else { db2 with removed := removeByKeys db2.removed (removedE.map (·.key)) }
  else db

/-- `addConnection(key1, key2, timestamp)` (db.js 438-440). -/
def addConnection (key1 key2 : String) (timestamp : Int) (db : DB) : DB :=
  updateAndCleanConnections true key1 key2 timestamp db

/-- `removeConnection(key1, key2, timestamp)` (db.js 442-444). -/
def removeConnection (key1 key2 : String) (timestamp : Int) (db : DB) : DB :=
  updateAndCleanConnections false key1 key2 timestamp db

/-- One `addConnection` / `removeConnection` request on a fixed unordered
pair: its kind, whether the two keys are supplied in swapped order, and its
client timestamp. -/
structure Call where
  isAdd : Bool
  swap : Bool
  timestamp : Int
  deriving DecidableEq

/-- Execute one call on the pair `{a, b}`. -/
def applyCall (a b : String) (c : Call) (db : DB) : DB :=
  let k1 := if c.swap then b else a
  let k2 := if c.swap then a else b
  if c.isAdd then addConnection k1 k2 c.timestamp db
  else removeConnection k1 k2 c.timestamp db

/-- Execute a sequence of calls on the pair `{a, b}`, in list order. -/
def runCalls (a b : String) (cs : List Call) (db : DB) : DB :=
  cs.foldl (fun db c => applyCall a b c db) db

/-- The live records the ledger holds for the pair `{a, b}`, each shown as
(kind, timestamp) with kind `true` for a ConnectionEdge and `false` for a
RemovalEdge. -/
def ledgerView (db : DB) (a b : String) : List (Bool × Int) :=
  (pairEdges db.connections a b).map (fun e => (true, e.timestamp))
    ++ (pairEdges db.removed a b).map (fun e => (false, e.timestamp))

/-- Well-formedness of the connection ledger, true of every ArangoDB state:
stored document keys lie below the fresh-key counter (ArangoDB never reuses
a key). -/
def connWF (db : DB) : Prop :=
  ∀ e ∈ db.connections ++ db.removed, e.key < db.nextKey

instance (db : DB) : Decidable (connWF db) := by
  unfold connWF; infer_instance

/-- The acceptance guard of `updateAndCleanConnections` (db.js 237-238): the
new timestamp is strictly newer than the most recent existing record of both
kinds (vacuously when a kind has no record). -/
def connAccepted (key1 key2 : String) (timestamp : Int) (db : DB) : Bool :=
  isNewerThanTop timestamp (allEdges db.connections key1 key2) &&
    isNewerThanTop timestamp (allEdges db.removed key1 key2)

/-- The last-writer-wins register the spec describes for the pair ledger:
fold the calls over a (kind, timestamp) value, replacing it exactly when a
call is strictly newer. -/
def lww (v : Bool × Int) (cs : List Call) : Bool × Int :=
  cs.foldl (fun v c => if v.2 < c.timestamp then (c.isAdd, c.timestamp) else v) v

/-- `UNION_DISTINCT` of two AQL sub-results (db.js 57-69). -/
def unionDistinct (l1 l2 : List String) : List String := (l1 ++ l2).dedup

/-- `userConnectionsRaw(user)` (db.js 55-70): the distinct opposite endpoints
of the user's records in `connections`. -/
def userConnectionsRaw (db : DB) (user : String) : List String :=
  unionDistinct
    ((db.connections.filter (fun c => decide (c.fromId = user))).map (·.toId))
    ((db.connections.filter (fun c => decide (c.toId = user))).map (·.fromId))

/-- `userConnections(user)` (db.js 72-74); the source strips the bijective
`users/` prefix, which is the identity in the bare-key model. -/
def userConnections (db : DB) (user : String) : List String :=
  userConnectionsRaw db user

/-- `groupMembers(groupId, isNew)` (db.js 87-101): the distinct member user
keys of a group, read from the namespace selected by `isNew`. -/
def groupMembers (db : DB) (groupId : Nat) (isNew : Bool) : List String :=
  let collection := if isNew then db.usersInNewGroups else db.usersInGroups
  ((collection.filter (fun i => decide (i.toId = groupId))).map (·.fromId)).dedup

/-- lodash `_.intersection(a, b)`: the distinct values of `a` that also occur
in `b`. -/
def lodashIntersection (l1 l2 : List String) : List String :=
  (l1.filter (fun x => decide (x ∈ l2))).dedup

/-- `isEligible(groupId, userId)` (db.js 103-109). -/
def isEligible (db : DB) (groupId : Nat) (userId : String) : Bool :=
  let userCons := userConnections db userId
  let groupMems := groupMembers db groupId false
  decide ((lodashIntersection userCons groupMems).length * 2 > groupMems.length)

/-- The error taxonomy of the `throw` statements of db.js (plus the
JavaScript ReferenceError raised by `createUser`, see `createUser`). -/
inductive DbError where
  | duplicateGroup
  | notConnected
  | groupNotFound
  | accessDenied
  | notEligible
  | referenceError
  deriving DecidableEq

/-- `loadUser(id)` (db.js 211-213): point lookup in `users`. -/
def loadUser (db : DB) (id : String) : Option User :=
  db.users.find? (fun u => u.key == id)

/-- `createUser(key)` (db.js 256-276).  When a user with the key already
exists, the source's branch returns `{key: currents[0]._key, ...}` where
`currents` is an undefined variable, so in JavaScript the call throws a
ReferenceError instead of returning; modelled as `DbError.referenceError`.
Otherwise the user is saved with score 0 and returned. -/
def createUser (db : DB) (key : String) : Except DbError (DB × User) :=
  match loadUser db key with
  | some _ => .error .referenceError
  | none =>
      .ok ({ db with users := db.users ++ [⟨key, 0⟩] }, ⟨key, 0⟩)

/-- `sponsor(key, context)` (db.js 467-476): an unconditional insert of a
SponsorshipEdge — the source performs no capacity check. -/
def sponsor (key context : String) (db : DB) : DB :=
  { db with sponsorships := db.sponsorships ++ [⟨key, context⟩] }

/-- The `usedSponsorships` count of `getContext` (db.js 449-453). -/
def countSponsorships (db : DB) (context : String) : Nat :=
  (db.sponsorships.filter (fun s => decide (s.toId = context))).length

/-- The `totalSponsorships` capacity of a context record, as read by
`getContext` (db.js 446-456). -/
def totalSponsorshipsOf (db : DB) (context : String) : Int :=
  ((db.contexts.find? (fun c => c.key == context)).map (·.totalSponsorships)).getD 0

/-- `addUserToGroup(collection, groupId, key, timestamp, groupCollName)`
(db.js 320-329): a plain `collection.save` of a fresh MembershipEdge, into
the namespace selected by `isNew`. -/
def addUserToGroup (isNew : Bool) (groupId : Nat) (key : String)
    (timestamp : Int) (db : DB) : DB :=
  let e : MembershipEdge := ⟨db.nextKey, key, groupId, timestamp⟩
  if isNew then
    { db with usersInNewGroups := db.usersInNewGroups ++ [e], nextKey := db.nextKey + 1 }
  else
    { db with usersInGroups := db.usersInGroups ++ [e], nextKey := db.nextKey + 1 }

/-- The `isDuplicate(collection)` check of `createGroup` (db.js 285-292):
some group of the collection has all three supplied keys among its
founders. -/
def isDuplicateIn (coll : List Group) (k1 k2 k3 : String) : Bool :=
  coll.any (fun g => decide (k1 ∈ g.founders ∧ k2 ∈ g.founders ∧ k3 ∈ g.founders))

/-- The ascending order used by the JavaScript `Array.sort()` on founder
keys. -/
def strAsc (a b : String) : Prop := a ≤ b

instance : DecidableRel strAsc := fun a b =>
  inferInstanceAs (Decidable (a ≤ b))

instance : IsTotal String strAsc := ⟨fun a b => le_total a b⟩

instance : IsTrans String strAsc := ⟨fun _ _ _ h1 h2 => le_trans h1 h2⟩

instance : IsAntisymm String strAsc := ⟨fun _ _ h1 h2 => le_antisymm h1 h2⟩

/-- `createGroup(key1, key2, key3, timestamp)` (db.js 278-318).  The random
group id is modelled by the fresh-key counter. -/
def createGroup (key1 key2 key3 : String) (timestamp : Int) (db : DB) :
    Except DbError (DB × Group) :=
  let founders := List.insertionSort strAsc [key1, key2, key3]
  if isDuplicateIn db.newGroups key1 key2 key3
      || isDuplicateIn db.groups key1 key2 key3 then
    .error .duplicateGroup
  else
    let conns := userConnections db key1
    if key2 ∉ conns ∨ key3 ∉ conns then .error .notConnected
    else
      let g : Group := ⟨db.nextKey, 0, true, timestamp, founders⟩
      let db1 := { db with newGroups := db.newGroups ++ [g], nextKey := db.nextKey + 1 }
      .ok (addUserToGroup true g.key key1 timestamp db1, g)

/-- One iteration of the promotion loop of `addMembership` (db.js 406-414):
copy the forming MembershipEdge into the established namespace (the source's
`_to.replace('newGroups', 'groups')` is the move between the two collections
in the bare-key model) and remove the forming document by key. -/
def migrateStep (d : DB) (doc : MembershipEdge) : DB :=
  let d1 := { d with
    usersInGroups := d.usersInGroups ++
      [({ key := d.nextKey, fromId := doc.fromId, toId := doc.toId,
          timestamp := doc.timestamp } : MembershipEdge)],
    nextKey := d.nextKey + 1 }
  { d1 with usersInNewGroups := d1.usersInNewGroups.filter (fun e => decide (e.key ≠ doc.key)) }

/-- `addMembership(groupId, key, timestamp)` (db.js 360-425). -/
def addMembership (groupId : Nat) (key : String) (timestamp : Int) (db : DB) :
    Except DbError DB :=
  let gEst := db.groups.filter (fun i => decide (i.key = groupId))
  let isNew := gEst.isEmpty
  let gs := if isNew then db.newGroups.filter (fun i => decide (i.key = groupId)) else gEst
  match gs with
  | [] => .error .groupNotFound
  | group :: _ =>
    if isNew ∧ key ∉ group.founders then .error .accessDenied
    else if isNew then
      let db1 := addUserToGroup true groupId key timestamp db
      let gMembers := db1.usersInNewGroups.filter (fun i => decide (i.toId = groupId))
      let memberIds := (gMembers.map (·.fromId)).dedup
      if memberIds.length = group.founders.length then
        let db2 := { db1 with groups := db1.groups ++
          [{ key := group.key, score := 0, isNew := false,
             timestamp := group.timestamp, founders := group.founders }] }
        let db3 := gMembers.foldl migrateStep db2
        .ok { db3 with newGroups := db3.newGroups.filter (fun i => decide (i.key ≠ group.key)) }
      else .ok db1
    else
      if isEligible db groupId key then .ok (addUserToGroup false groupId key timestamp db)
      else .error .notEligible

/-- The dictionary a `groupToDic(group)` result amounts to (db.js 168-187). -/
structure GroupDic where
  isNew : Bool
  score : Int
  id : Nat
  knownMembers : List String
  founders : List String
  deriving DecidableEq

/-- `groupToDic(group)` (db.js 168-187); `knownMembers` is the field the
caller merged onto the group record, used when the group is established. -/
def groupToDic (db : DB) (g : Group) (knownMembers : List String) : GroupDic :=
  { isNew := g.isNew, score := g.score, id := g.key,
    knownMembers := if g.isNew then groupMembers db g.key true else knownMembers,
    founders := g.founders }

/-- `loadGroups(groupIds, connections, myUserId)` (db.js 189-209): iterate the
`groups` collection in store order, keeping the requested ids. -/
def loadGroups (db : DB) (groupIds : List Nat) (connections : List String)
    (myUserId : String) : List GroupDic :=
  (db.groups.filter (fun g => decide (g.key ∈ groupIds))).map (fun g =>
    let members := (((db.usersInGroups.filter
        (fun m => decide (m.toId = g.key ∧ m.fromId ∈ connections))).take 3).map (·.fromId)).dedup
    let meList := ((db.usersInGroups.filter
        (fun m => decide (m.toId = g.key ∧ m.fromId = myUserId))).take 1).map (·.fromId)
    groupToDic db g (members ++ meList))

/-- AQL `COLLECT value WITH COUNT INTO count` over a list of values: each
distinct value with its number of occurrences. -/
def collectCounts (l : List Nat) : List (Nat × Nat) :=
  l.dedup.map (fun a => (a, l.count a))

/-- The `SORT count DESC` order of the candidate rows of
`userEligibleGroups`. -/
def countDesc (a b : Nat × Nat) : Prop := b.2 ≤ a.2

instance : DecidableRel countDesc := fun a b =>
  inferInstanceAs (Decidable (b.2 ≤ a.2))

instance : IsTotal (Nat × Nat) countDesc := ⟨fun a b => le_total b.2 a.2⟩

instance : IsTrans (Nat × Nat) countDesc := ⟨fun _ _ _ h1 h2 => le_trans h2 h1⟩

/-- `userEligibleGroups(userId, connections, currentGroups)` (db.js 111-148).
The JavaScript dictionary probe `groupCountsDic[g.group]` is a lookup that
compares as false when the key is missing. -/
def userEligibleGroups (db : DB) (userId : String) (connections : List String)
    (currentGroups : List Nat) : List GroupDic :=
  let candidates := List.insertionSort countDesc
    ((collectCounts ((db.usersInGroups.filter
        (fun edge => decide (edge.fromId ∈ connections ∧ edge.toId ∉ currentGroups))).map
          (·.toId))).filter (fun p => decide (2 ≤ p.2)))
  let groupIds := candidates.map (·.1)
  let groupCounts := collectCounts ((db.usersInGroups.filter
      (fun ug => decide (ug.toId ∈ groupIds))).map (·.toId))
  let eligibles := (candidates.filter (fun g =>
      match (groupCounts.find? (fun row => row.1 == g.1)).map (·.2) with
      | some n => decide (g.2 * 2 > n)
      | none => false)).map (·.1)
  loadGroups db eligibles connections userId

/-- The membership projection seen by the claims: user, group and timestamp
of a MembershipEdge (its generated key abstracted away). -/
def mproj (e : MembershipEdge) : String × Nat × Int := (e.fromId, e.toId, e.timestamp)

/-- The user's matching members of a group: the distinct members that are
also among the given connections (the spec's intersection count). -/
def matchingMembers (db : DB) (connections : List String) (gkey : Nat) : List String :=
  (groupMembers db gkey false).filter (fun m => decide (m ∈ connections))

/-- The eligible group keys `userEligibleGroups` computes before the final
`loadGroups` call (db.js 113-145), named for the proofs. -/
def eligiblesOf (db : DB) (connections : List String) (currentGroups : List Nat) : List Nat :=
  let candidates := List.insertionSort countDesc
    ((collectCounts ((db.usersInGroups.filter
        (fun edge => decide (edge.fromId ∈ connections ∧ edge.toId ∉ currentGroups))).map
          (fun x => x.toId))).filter (fun p => decide (2 ≤ p.2)))
  let groupIds := candidates.map (fun x => x.1)
  let groupCounts := collectCounts ((db.usersInGroups.filter
      (fun ug => decide (ug.toId ∈ groupIds))).map (fun x => x.toId))
  (candidates.filter (fun g =>
      match (groupCounts.find? (fun row => row.1 == g.1)).map (fun x => x.2) with
      | some n => decide (g.2 * 2 > n)
      | none => false)).map (fun x => x.1)

/-- The `SORT u3.timestamp DESC` order of the `latest` subquery of
`revocableIds`. -/
def linkTsDesc (a b : AccountLink) : Prop := b.timestamp ≤ a.timestamp

instance : DecidableRel linkTsDesc := fun a b =>
  inferInstanceAs (Decidable (b.timestamp ≤ a.timestamp))

instance : IsTotal AccountLink linkTsDesc := ⟨fun a b => le_total b.timestamp a.timestamp⟩

instance : IsTrans AccountLink linkTsDesc := ⟨fun _ _ _ h1 h2 => le_trans h2 h1⟩

/-- The `latest` subquery of `revocableIds` (db.js 546-552): the document key
of a user's most recent account link in the collection. -/
def latestLinkKey (coll : List AccountLink) (usr : String) : Option Nat :=
  ((List.insertionSort linkTsDesc (coll.filter (fun u3 => decide (u3.user = usr)))).head?).map (·.key)

/-- `revocableIds(collection, id, user)` (db.js 524-562): the user's account
ids other than `id` that are not the current (most recent) link of any other
user. -/
def revocableIds (coll : List AccountLink) (id user : String) : List String :=
  ((coll.filter (fun u => decide (u.account ≠ id ∧ u.user = user))).filter
    (fun u => ! coll.any (fun u2 =>
      decide (u2.account = u.account ∧ u2.user ≠ u.user) &&
        (latestLinkKey coll u2.user == some u2.key)))).map (·.account)

/-! Concrete states used to instantiate the theorems below. -/

/-- A group (key 1) with the four members m1..m4, of which m1 and m2 are
connections of the user u. -/
def dbC2a : DB :=
  { nextKey := 10,
    connections := [⟨1, "u", "m1", 0⟩, ⟨2, "u", "m2", 0⟩],
    usersInGroups := [⟨3, "m1", 1, 0⟩, ⟨4, "m2", 1, 0⟩, ⟨5, "m3", 1, 0⟩, ⟨6, "m4", 1, 0⟩] }

/-- `dbC2a` with a third connection of u into the group. -/
def dbC2b : DB :=
  { dbC2a with connections := dbC2a.connections ++ [⟨7, "m3", "u", 0⟩] }

/-- A forming group whose founders a and b have joined, so that c's join
promotes it. -/
def dbC3 : DB :=
  { nextKey := 12,
    newGroups := [⟨1, 0, true, 7, ["a", "b", "c"]⟩],
    usersInNewGroups := [⟨10, "a", 1, 7⟩, ⟨11, "b", 1, 8⟩] }

/-- A context with zero sponsorship capacity and no sponsorships. -/
def dbC5 : DB := { contexts := [⟨"app", 0⟩] }

/-- Account links of user U (X then Y, Y current) and of user V whose
current link is X. -/
def collC6 : List AccountLink := [⟨1, "U", "X", 1⟩, ⟨2, "U", "Y", 2⟩, ⟨3, "V", "X", 5⟩]

/-- `collC6` with a later link of V, so that V's current link is Z. -/
def collC6b : List AccountLink := collC6 ++ [⟨4, "V", "Z", 6⟩]

/-- A state where user a is connected to b and to c. -/
def dbC7 : DB :=
  { nextKey := 5,
    connections := [⟨1, "a", "b", 0⟩, ⟨2, "c", "a", 0⟩] }

/-- A forming group whose founder a has already joined. -/
def dbC8 : DB :=
  { nextKey := 20,
    newGroups := [⟨1, 0, true, 0, ["a", "b", "c"]⟩],
    usersInNewGroups := [⟨10, "a", 1, 0⟩] }

/-- Two established groups: group 1 (stored first) has two of the user's
connections among its two members, group 2 has three among its three
members — both eligible, group 2 with the higher matching count. -/
def dbC9 : DB :=
  { nextKey := 30,
    groups := [⟨1, 0, false, 0, ["p", "q", "r"]⟩, ⟨2, 0, false, 0, ["p", "q", "r"]⟩],
    usersInGroups := [⟨11, "x", 1, 0⟩, ⟨12, "y", 1, 0⟩, ⟨13, "x", 2, 0⟩, ⟨14, "y", 2, 0⟩, ⟨15, "z", 2, 0⟩] }

/-- A state with one existing user. -/
def dbC10 : DB := { users := [⟨"u", 5⟩] }

/-! Helper lemmas. -/

/-- The lodash intersection's length is the cardinality of the set
intersection. -/
theorem lodashIntersection_length (a b : List String) :
    (lodashIntersection a b).length = (a.toFinset ∩ b.toFinset).card := by
  unfold lodashIntersection
  rw [← List.card_toFinset]
  congr 1
  ext x
  simp [List.mem_filter]

/-- `groupMembers` is duplicate-free. -/
theorem groupMembers_nodup (db : DB) (groupId : Nat) (isNew : Bool) :
    (groupMembers db groupId isNew).Nodup :=
  List.nodup_dedup _

/-! C2: the eligibility threshold. -/

/-- C2: `isEligibleToJoin` (source `isEligible`) returns true iff twice the
cardinality of the intersection of the user's connection set with the
group's member set strictly exceeds the group's member count; with 4 members
and 2 matching connections it returns false, with 3 matching it returns
true. -/
theorem c2_eligibility_threshold :
    (∀ (db : DB) (groupId : Nat) (userId : String),
        isEligible db groupId userId = true ↔
          2 * ((userConnections db userId).toFinset ∩
              (groupMembers db groupId false).toFinset).card >
            (groupMembers db groupId false).toFinset.card)
      ∧ isEligible dbC2a 1 "u" = false ∧ isEligible dbC2b 1 "u" = true := by
  refine ⟨fun db groupId userId => ?_, by rfl, by rfl⟩
  have h1 := lodashIntersection_length (userConnections db userId)
    (groupMembers db groupId false)
  have h2 : (groupMembers db groupId false).toFinset.card =
      (groupMembers db groupId false).length :=
    List.toFinset_card_of_nodup (groupMembers_nodup db groupId false)
  simp only [isEligible, decide_eq_true_eq]
  omega

/-! C5: the sponsorship ledger. -/

/-- C5 counterexample: with a context of capacity 0 and no existing
sponsorships, the claim requires the call to fail, but `sponsor` inserts a
SponsorshipEdge anyway — the source performs no capacity check. -/
theorem c5_counterexample :
    countSponsorships (sponsor "u" "app" dbC5) "app" = countSponsorships dbC5 "app" + 1
      ∧ ¬ ((countSponsorships dbC5 "app" : Int) < totalSponsorshipsOf dbC5 "app") := by
  exact ⟨by rfl, by decide⟩

/-- C5 amended: `sponsor(user, context)` unconditionally appends a
SponsorshipEdge, with no capacity check: every call succeeds and increments
the context's sponsorship count, so iterating it any number of times from
any state succeeds. -/
theorem c5_sponsor_unconditional :
    (∀ (db : DB) (key context : String),
        sponsor key context db =
          { db with sponsorships := db.sponsorships ++ [⟨key, context⟩] })
      ∧ (∀ (db : DB) (key context : String),
          countSponsorships (sponsor key context db) context =
            countSponsorships db context + 1)
      ∧ ∀ (db : DB) (key context : String) (n : Nat),
          countSponsorships ((sponsor key context)^[n] db) context =
            countSponsorships db context + n := by
  have hstep : ∀ (db : DB) (key context : String),
      countSponsorships (sponsor key context db) context =
        countSponsorships db context + 1 := by
    intro db key context
    simp [countSponsorships, sponsor, List.filter_append]
  refine ⟨fun db key context => rfl, hstep, fun db key context n => ?_⟩
  induction n generalizing db with
  | zero => simp
  | succ n ih =>
      rw [Function.iterate_succ_apply, ih, hstep]
      omega

/-! C10: `createUser`. -/

/-- C10: `createUser(key)` returns `{key, score: 0}` (inserting the user)
exactly when no user with the key exists; when one exists, the source's
branch reads the undefined variable `currents`, so the call throws
(ReferenceError) instead of returning the existing record. -/
theorem c10_create_user_branches :
    (∀ (db : DB) (key : String), loadUser db key = none →
        createUser db key = .ok ({ db with users := db.users ++ [⟨key, 0⟩] }, ⟨key, 0⟩))
      ∧ ∀ (db : DB) (key : String) (u : User), loadUser db key = some u →
          createUser db key = .error .referenceError := by
  constructor
  · intro db key h
    simp [createUser, h]
  · intro db key u h
    simp [createUser, h]

/-- C10 witness: a fresh key is created with score 0; an existing key makes
the call fail. -/
theorem c10_create_user_branches_witness :
    createUser emptyDB "u" = .ok ({ emptyDB with users := [⟨"u", 0⟩] }, ⟨"u", 0⟩)
      ∧ createUser dbC10 "u" = .error .referenceError :=
  ⟨c10_create_user_branches.1 emptyDB "u" rfl,
    c10_create_user_branches.2 dbC10 "u" ⟨"u", 5⟩ rfl⟩

/-! Lemmas about the connection ledger. -/

theorem mem_pairEdges {edges : List ConnEdge} {u1 u2 : String} {e : ConnEdge} :
    e ∈ pairEdges edges u1 u2 ↔ e ∈ edges ∧
      ((e.fromId = u1 ∧ e.toId = u2) ∨ (e.fromId = u2 ∧ e.toId = u1)) := by
  simp [pairEdges, pairPred, List.mem_filter]

theorem pairEdges_comm (edges : List ConnEdge) (u1 u2 : String) :
    pairEdges edges u1 u2 = pairEdges edges u2 u1 := by
  unfold pairEdges
  apply List.filter_congr
  intro e _
  exact decide_eq_decide.mpr or_comm

theorem pairEdges_filter (l : List ConnEdge) (p : ConnEdge → Bool) (u1 u2 : String) :
    pairEdges (l.filter p) u1 u2 = (pairEdges l u1 u2).filter p := by
  unfold pairEdges
  rw [List.filter_comm]

theorem pairEdges_append (l1 l2 : List ConnEdge) (u1 u2 : String) :
    pairEdges (l1 ++ l2) u1 u2 = pairEdges l1 u1 u2 ++ pairEdges l2 u1 u2 := by
  unfold pairEdges
  exact List.filter_append _ _

/-- The records of `allEdges` are exactly the pair's records. -/
theorem allEdges_perm (edges : List ConnEdge) (u1 u2 : String) :
    (allEdges edges u1 u2).Perm (pairEdges edges u1 u2) :=
  List.perm_insertionSort _ _

/-- The guard of db.js 237 holds exactly when the new timestamp is strictly
greater than every existing record of the pair in the collection. -/
theorem isNewerThanTop_allEdges (timestamp : Int) (edges : List ConnEdge) (u1 u2 : String) :
    isNewerThanTop timestamp (allEdges edges u1 u2) = true ↔
      ∀ e ∈ pairEdges edges u1 u2, e.timestamp < timestamp := by
  have hperm := allEdges_perm edges u1 u2
  have hsorted : (allEdges edges u1 u2).Sorted tsDesc :=
    List.sorted_insertionSort tsDesc (pairEdges edges u1 u2)
  cases h : allEdges edges u1 u2 with
  | nil =>
      rw [h] at hperm
      have hnil : pairEdges edges u1 u2 = [] := hperm.symm.eq_nil
      simp [isNewerThanTop, hnil]
  | cons a t =>
      rw [h] at hperm hsorted
      simp only [isNewerThanTop, decide_eq_true_eq]
      constructor
      · intro ha e he
        have hmem : e ∈ a :: t := hperm.symm.subset he
        rcases List.mem_cons.mp hmem with rfl | ht
        · exact ha
        · exact lt_of_le_of_lt (List.rel_of_sorted_cons hsorted e ht) ha
      · intro h2
        exact h2 a (hperm.subset (List.mem_cons_self a t))

/-- The acceptance guard holds exactly when the new timestamp beats every
existing record of both kinds for the pair. -/
theorem connAccepted_iff (key1 key2 : String) (timestamp : Int) (db : DB) :
    connAccepted key1 key2 timestamp db = true ↔
      (∀ e ∈ pairEdges db.connections key1 key2, e.timestamp < timestamp) ∧
        ∀ e ∈ pairEdges db.removed key1 key2, e.timestamp < timestamp := by
  unfold connAccepted
  rw [Bool.and_eq_true, isNewerThanTop_allEdges, isNewerThanTop_allEdges]

/-- Removing all of `allEdges`'s keys clears the pair's records. -/
theorem pairEdges_cleaned (coll : List ConnEdge) (u1 u2 : String) :
    pairEdges (removeByKeys coll ((allEdges coll u1 u2).map (·.key))) u1 u2 = [] := by
  unfold removeByKeys
  rw [pairEdges_filter, List.filter_eq_nil_iff]
  intro e he
  simp only [decide_eq_true_eq, Decidable.not_not]
  exact List.mem_map_of_mem (·.key) ((allEdges_perm coll u1 u2).symm.subset he)

/-- A freshly keyed inserted pair record survives the cleanup. -/
theorem pairEdges_cleaned_new (coll : List ConnEdge) (u1 u2 : String) (e : ConnEdge)
    (he : pairPred u1 u2 e = true) (hfresh : ∀ x ∈ coll, x.key ≠ e.key) :
    pairEdges (removeByKeys (coll ++ [e]) ((allEdges coll u1 u2).map (·.key))) u1 u2
      = [e] := by
  unfold removeByKeys
  rw [pairEdges_filter, pairEdges_append]
  have h1 : (pairEdges coll u1 u2).filter
      (fun x => decide (x.key ∉ (allEdges coll u1 u2).map (·.key))) = [] := by
    have := pairEdges_cleaned coll u1 u2
    unfold removeByKeys at this
    rw [pairEdges_filter] at this
    exact this
  have h2 : pairEdges [e] u1 u2 = [e] := by
    simp [pairEdges, he]
  rw [List.filter_append, h1, h2]
  have h3 : e.key ∉ (allEdges coll u1 u2).map (·.key) := by
    intro hmem
    rcases List.mem_map.mp hmem with ⟨x, hx, hkey⟩
    exact hfresh x (mem_pairEdges.mp ((allEdges_perm coll u1 u2).subset hx)).1 hkey
  rw [List.nil_append, List.filter_cons, if_pos (decide_eq_true h3), List.filter_nil]

theorem pairEdges_singleton (u1 u2 : String) (e : ConnEdge)
    (he : pairPred u1 u2 e = true) : pairEdges [e] u1 u2 = [e] := by
  unfold pairEdges
  rw [List.filter_cons, if_pos he, List.filter_nil]

/-- The conditional of db.js 239-252 written out: an accepted write is the
insert plus, when records existed, the cleanup of both kinds. -/
theorem updateAndClean_eq (isConn : Bool) (k1 k2 : String) (ts : Int) (db : DB) :
    updateAndCleanConnections isConn k1 k2 ts db =
      if connAccepted k1 k2 ts db then
        let added := allEdges db.connections k1 k2
        let removedE := allEdges db.removed k1 k2
        let db1 := insertConnEdge isConn k1 k2 ts db
        let db2 :=
          if added.isEmpty then db1
          else { db1 with connections := removeByKeys db1.connections (added.map (·.key)) }
        if removedE.isEmpty then db2
        else { db2 with removed := removeByKeys db2.removed (removedE.map (·.key)) }
      else db := rfl

/-- A rejected write is a silent no-op. -/
theorem updateAndClean_rejected (isConn : Bool) (k1 k2 : String) (ts : Int) (db : DB)
    (h : connAccepted k1 k2 ts db = false) :
    updateAndCleanConnections isConn k1 k2 ts db = db := by
  rw [updateAndClean_eq, h]
  rfl

/-- Explicit form of an accepted write into `connections`. -/
theorem updateAndClean_accepted_true (k1 k2 : String) (ts : Int) (db : DB)
    (hacc : connAccepted k1 k2 ts db = true) :
    updateAndCleanConnections true k1 k2 ts db =
      { db with
        nextKey := db.nextKey + 1,
        connections :=
          if (allEdges db.connections k1 k2).isEmpty then
            db.connections ++ [⟨db.nextKey, k1, k2, ts⟩]
          else removeByKeys (db.connections ++ [⟨db.nextKey, k1, k2, ts⟩])
            ((allEdges db.connections k1 k2).map (·.key)),
        removed :=
          if (allEdges db.removed k1 k2).isEmpty then db.removed
          else removeByKeys db.removed ((allEdges db.removed k1 k2).map (·.key)) } := by
  rw [updateAndClean_eq, hacc, if_pos rfl]
  cases h1 : (allEdges db.connections k1 k2).isEmpty <;>
    cases h2 : (allEdges db.removed k1 k2).isEmpty <;>
      simp [insertConnEdge, h1, h2]

/-- Explicit form of an accepted write into `removed`. -/
theorem updateAndClean_accepted_false (k1 k2 : String) (ts : Int) (db : DB)
    (hacc : connAccepted k1 k2 ts db = true) :
    updateAndCleanConnections false k1 k2 ts db =
      { db with
        nextKey := db.nextKey + 1,
        connections :=
          if (allEdges db.connections k1 k2).isEmpty then db.connections
          else removeByKeys db.connections ((allEdges db.connections k1 k2).map (·.key)),
        removed :=
          if (allEdges db.removed k1 k2).isEmpty then
            db.removed ++ [⟨db.nextKey, k1, k2, ts⟩]
          else removeByKeys (db.removed ++ [⟨db.nextKey, k1, k2, ts⟩])
            ((allEdges db.removed k1 k2).map (·.key)) } := by
  rw [updateAndClean_eq, hacc, if_pos rfl]
  cases h1 : (allEdges db.connections k1 k2).isEmpty <;>
    cases h2 : (allEdges db.removed k1 k2).isEmpty <;>
      simp [insertConnEdge, h1, h2]

/-- Inserting a fresh pair record and cleaning leaves exactly that record. -/
theorem pairEdges_accepted_ins (coll : List ConnEdge) (u1 u2 : String) (e : ConnEdge)
    (he : pairPred u1 u2 e = true) (hfresh : ∀ x ∈ coll, x.key ≠ e.key) :
    pairEdges (if (allEdges coll u1 u2).isEmpty then coll ++ [e]
      else removeByKeys (coll ++ [e]) ((allEdges coll u1 u2).map (·.key))) u1 u2 = [e] := by
  cases hne : (allEdges coll u1 u2).isEmpty with
  | false =>
      rw [if_neg (by simp)]
      exact pairEdges_cleaned_new coll u1 u2 e he hfresh
  | true =>
      rw [if_pos rfl]
      have hnil : pairEdges coll u1 u2 = [] := by
        have hp := allEdges_perm coll u1 u2
        rw [List.isEmpty_iff.mp hne] at hp
        exact hp.symm.eq_nil
      rw [pairEdges_append, hnil, pairEdges_singleton u1 u2 e he, List.nil_append]

/-- Cleaning the collection that receives no insert clears the pair. -/
theorem pairEdges_accepted_other (coll : List ConnEdge) (u1 u2 : String) :
    pairEdges (if (allEdges coll u1 u2).isEmpty then coll
      else removeByKeys coll ((allEdges coll u1 u2).map (·.key))) u1 u2 = [] := by
  cases hne : (allEdges coll u1 u2).isEmpty with
  | false =>
      rw [if_neg (by simp)]
      exact pairEdges_cleaned coll u1 u2
  | true =>
      rw [if_pos rfl]
      have hp := allEdges_perm coll u1 u2
      rw [List.isEmpty_iff.mp hne] at hp
      exact hp.symm.eq_nil

/-- An accepted write leaves exactly the new record as the pair's ledger. -/
theorem updateAndClean_accepted_view (isConn : Bool) (k1 k2 : String) (ts : Int)
    (db : DB) (hwf : connWF db) (hacc : connAccepted k1 k2 ts db = true) :
    ledgerView (updateAndCleanConnections isConn k1 k2 ts db) k1 k2 = [(isConn, ts)] := by
  have hfreshC : ∀ x ∈ db.connections, x.key ≠ db.nextKey := fun x hx =>
    Nat.ne_of_lt (hwf x (List.mem_append_left _ hx))
  have hfreshR : ∀ x ∈ db.removed, x.key ≠ db.nextKey := fun x hx =>
    Nat.ne_of_lt (hwf x (List.mem_append_right _ hx))
  have hpp : pairPred k1 k2 (⟨db.nextKey, k1, k2, ts⟩ : ConnEdge) = true := by
    simp [pairPred]
  cases isConn with
  | true =>
      rw [updateAndClean_accepted_true k1 k2 ts db hacc]
      unfold ledgerView
      rw [show ({ db with
            nextKey := db.nextKey + 1,
            connections :=
              if (allEdges db.connections k1 k2).isEmpty then
                db.connections ++ [⟨db.nextKey, k1, k2, ts⟩]
              else removeByKeys (db.connections ++ [⟨db.nextKey, k1, k2, ts⟩])
                ((allEdges db.connections k1 k2).map (·.key)),
            removed :=
              if (allEdges db.removed k1 k2).isEmpty then db.removed
              else removeByKeys db.removed
                ((allEdges db.removed k1 k2).map (·.key)) } : DB).connections = _ from rfl]
      rw [pairEdges_accepted_ins db.connections k1 k2 _ hpp hfreshC,
        pairEdges_accepted_other db.removed k1 k2]
      rfl
  | false =>
      rw [updateAndClean_accepted_false k1 k2 ts db hacc]
      unfold ledgerView
      rw [show ({ db with
            nextKey := db.nextKey + 1,
            connections :=
              if (allEdges db.connections k1 k2).isEmpty then db.connections
              else removeByKeys db.connections
                ((allEdges db.connections k1 k2).map (·.key)),
            removed :=
              if (allEdges db.removed k1 k2).isEmpty then
                db.removed ++ [⟨db.nextKey, k1, k2, ts⟩]
              else removeByKeys (db.removed ++ [⟨db.nextKey, k1, k2, ts⟩])
                ((allEdges db.removed k1 k2).map (·.key)) } : DB).removed = _ from rfl]
      rw [pairEdges_accepted_other db.connections k1 k2,
        pairEdges_accepted_ins db.removed k1 k2 _ hpp hfreshR]
      rfl

theorem mem_of_mem_ifclean_other {coll : List ConnEdge} {u1 u2 : String} {e : ConnEdge}
    (he : e ∈ (if (allEdges coll u1 u2).isEmpty then coll
      else removeByKeys coll ((allEdges coll u1 u2).map (·.key)))) : e ∈ coll := by
  split at he
  · exact he
  · exact List.mem_of_mem_filter he

theorem mem_of_mem_ifclean_ins {coll : List ConnEdge} {u1 u2 : String} {x e : ConnEdge}
    (he : e ∈ (if (allEdges coll u1 u2).isEmpty then coll ++ [x]
      else removeByKeys (coll ++ [x]) ((allEdges coll u1 u2).map (·.key)))) :
    e ∈ coll ++ [x] := by
  split at he
  · exact he
  · exact List.mem_of_mem_filter he

/-- `updateAndCleanConnections` preserves ledger well-formedness. -/
theorem connWF_update (isConn : Bool) (k1 k2 : String) (ts : Int) (db : DB)
    (hwf : connWF db) : connWF (updateAndCleanConnections isConn k1 k2 ts db) := by
  cases hacc : connAccepted k1 k2 ts db with
  | false => rw [updateAndClean_rejected _ _ _ _ _ hacc]; exact hwf
  | true =>
      have hbump : ∀ x ∈ db.connections ++ db.removed, x.key < db.nextKey + 1 :=
        fun x hx => Nat.lt_succ_of_lt (hwf x hx)
      cases isConn with
      | true =>
          rw [updateAndClean_accepted_true k1 k2 ts db hacc]
          intro e he
          rcases List.mem_append.mp he with he | he
          · rcases List.mem_append.mp (mem_of_mem_ifclean_ins he) with he | he
            · exact hbump e (List.mem_append_left _ he)
            · rw [List.mem_singleton.mp he]
              exact Nat.lt_succ_self _
          · exact hbump e (List.mem_append_right _ (mem_of_mem_ifclean_other he))
      | false =>
          rw [updateAndClean_accepted_false k1 k2 ts db hacc]
          intro e he
          rcases List.mem_append.mp he with he | he
          · exact hbump e (List.mem_append_left _ (mem_of_mem_ifclean_other he))
          · rcases List.mem_append.mp (mem_of_mem_ifclean_ins he) with he | he
            · exact hbump e (List.mem_append_right _ he)
            · rw [List.mem_singleton.mp he]
              exact Nat.lt_succ_self _

theorem append_eq_singleton {α : Type} {l1 l2 : List α} {x : α} (h : l1 ++ l2 = [x]) :
    (l1 = [x] ∧ l2 = []) ∨ (l1 = [] ∧ l2 = [x]) := by
  cases l1 with
  | nil => exact Or.inr ⟨rfl, h⟩
  | cons a t =>
      rw [List.cons_append] at h
      injection h with h1 h2
      rcases List.append_eq_nil.mp h2 with ⟨rfl, rfl⟩
      exact Or.inl ⟨by rw [h1], rfl⟩

theorem map_eq_singleton {α β : Type} {f : α → β} {l : List α} {x : β}
    (h : l.map f = [x]) : ∃ a, l = [a] ∧ f a = x := by
  cases l with
  | nil => simp at h
  | cons a t =>
      rw [List.map_cons] at h
      injection h with h1 h2
      exact ⟨a, by rw [List.map_eq_nil_iff.mp h2], h1⟩

/-- An empty ledger view means neither kind has a record for the pair. -/
theorem ledgerView_nil {db : DB} {a b : String} (h : ledgerView db a b = []) :
    pairEdges db.connections a b = [] ∧ pairEdges db.removed a b = [] := by
  unfold ledgerView at h
  rcases List.append_eq_nil.mp h with ⟨h1, h2⟩
  exact ⟨List.map_eq_nil_iff.mp h1, List.map_eq_nil_iff.mp h2⟩

/-- A singleton ConnectionEdge view pins both collections. -/
theorem ledgerView_single_true {db : DB} {a b : String} {t : Int}
    (h : ledgerView db a b = [(true, t)]) :
    (∃ e, pairEdges db.connections a b = [e] ∧ e.timestamp = t)
      ∧ pairEdges db.removed a b = [] := by
  unfold ledgerView at h
  rcases append_eq_singleton h with ⟨h1, h2⟩ | ⟨h1, h2⟩
  · obtain ⟨e, he, hfe⟩ := map_eq_singleton h1
    exact ⟨⟨e, he, congrArg Prod.snd hfe⟩, List.map_eq_nil_iff.mp h2⟩
  · obtain ⟨e, _, hfe⟩ := map_eq_singleton h2
    exact absurd (congrArg Prod.fst hfe) (by simp)

/-- A singleton RemovalEdge view pins both collections. -/
theorem ledgerView_single_false {db : DB} {a b : String} {t : Int}
    (h : ledgerView db a b = [(false, t)]) :
    pairEdges db.connections a b = []
      ∧ ∃ e, pairEdges db.removed a b = [e] ∧ e.timestamp = t := by
  unfold ledgerView at h
  rcases append_eq_singleton h with ⟨h1, h2⟩ | ⟨h1, h2⟩
  · obtain ⟨e, _, hfe⟩ := map_eq_singleton h1
    exact absurd (congrArg Prod.fst hfe) (by simp)
  · obtain ⟨e, he, hfe⟩ := map_eq_singleton h2
    exact ⟨List.map_eq_nil_iff.mp h1, ⟨e, he, congrArg Prod.snd hfe⟩⟩

theorem allEdges_comm (coll : List ConnEdge) (u1 u2 : String) :
    allEdges coll u1 u2 = allEdges coll u2 u1 := by
  unfold allEdges
  rw [pairEdges_comm]

theorem connAccepted_comm (k1 k2 : String) (ts : Int) (db : DB) :
    connAccepted k1 k2 ts db = connAccepted k2 k1 ts db := by
  unfold connAccepted
  rw [allEdges_comm db.connections, allEdges_comm db.removed]

theorem ledgerView_comm (db : DB) (a b : String) :
    ledgerView db a b = ledgerView db b a := by
  unfold ledgerView
  rw [pairEdges_comm db.connections, pairEdges_comm db.removed]

/-- A write against an empty pair ledger is always accepted and leaves the
new record as the pair's single live record. -/
theorem update_step_empty (isConn : Bool) (u1 u2 : String) (ts : Int) (db : DB)
    (hwf : connWF db) (h1 : pairEdges db.connections u1 u2 = [])
    (h2 : pairEdges db.removed u1 u2 = []) :
    ledgerView (updateAndCleanConnections isConn u1 u2 ts db) u1 u2 = [(isConn, ts)]
      ∧ connWF (updateAndCleanConnections isConn u1 u2 ts db) := by
  have hacc : connAccepted u1 u2 ts db = true :=
    (connAccepted_iff u1 u2 ts db).mpr (by simp [h1, h2])
  exact ⟨updateAndClean_accepted_view isConn u1 u2 ts db hwf hacc,
    connWF_update isConn u1 u2 ts db hwf⟩

/-- A write against a single-record pair ledger: accepted and replacing it
exactly when strictly newer, a silent no-op otherwise. -/
theorem update_step_single (isConn : Bool) (u1 u2 : String) (ts : Int) (db : DB)
    (k : Bool) (t : Int) (hwf : connWF db) (hv : ledgerView db u1 u2 = [(k, t)]) :
    (t < ts → ledgerView (updateAndCleanConnections isConn u1 u2 ts db) u1 u2 = [(isConn, ts)]
        ∧ connWF (updateAndCleanConnections isConn u1 u2 ts db))
      ∧ (¬ t < ts → updateAndCleanConnections isConn u1 u2 ts db = db) := by
  have hacc : connAccepted u1 u2 ts db = true ↔ t < ts := by
    rw [connAccepted_iff]
    cases k with
    | false =>
        obtain ⟨h1, e, h2, h3⟩ := ledgerView_single_false hv
        subst h3
        simp [h1, h2]
    | true =>
        obtain ⟨⟨e, h1, h3⟩, h2⟩ := ledgerView_single_true hv
        subst h3
        simp [h1, h2]
  constructor
  · intro hlt
    exact ⟨updateAndClean_accepted_view isConn u1 u2 ts db hwf (hacc.mpr hlt),
      connWF_update isConn u1 u2 ts db hwf⟩
  · intro hge
    have ha : connAccepted u1 u2 ts db = false := by
      cases hb : connAccepted u1 u2 ts db with
      | false => rfl
      | true => exact absurd (hacc.mp hb) hge
    exact updateAndClean_rejected isConn u1 u2 ts db ha

theorem applyCall_eq (a b : String) (c : Call) (db : DB) :
    applyCall a b c db = updateAndCleanConnections c.isAdd
      (if c.swap then b else a) (if c.swap then a else b) c.timestamp db := by
  cases hc : c.isAdd <;>
    simp [applyCall, addConnection, removeConnection, hc]

/-- One call against an empty pair ledger installs its record. -/
theorem applyCall_from_empty (a b : String) (c : Call) (db : DB) (hwf : connWF db)
    (hv : ledgerView db a b = []) :
    ledgerView (applyCall a b c db) a b = [(c.isAdd, c.timestamp)]
      ∧ connWF (applyCall a b c db) := by
  obtain ⟨h1, h2⟩ := ledgerView_nil hv
  rw [applyCall_eq]
  cases hs : c.swap with
  | false =>
      simp only [if_false, Bool.false_eq_true]
      exact update_step_empty c.isAdd a b c.timestamp db hwf h1 h2
  | true =>
      simp only [if_true]
      have h1' : pairEdges db.connections b a = [] := by rw [← pairEdges_comm]; exact h1
      have h2' : pairEdges db.removed b a = [] := by rw [← pairEdges_comm]; exact h2
      obtain ⟨hview, hwf'⟩ := update_step_empty c.isAdd b a c.timestamp db hwf h1' h2'
      exact ⟨by rw [ledgerView_comm]; exact hview, hwf'⟩

/-- One call against a single-record pair ledger follows the last-writer-wins
rule. -/
theorem applyCall_single (a b : String) (c : Call) (db : DB) (k : Bool) (t : Int)
    (hwf : connWF db) (hv : ledgerView db a b = [(k, t)]) :
    (t < c.timestamp → ledgerView (applyCall a b c db) a b = [(c.isAdd, c.timestamp)]
        ∧ connWF (applyCall a b c db))
      ∧ (¬ t < c.timestamp → applyCall a b c db = db) := by
  rw [applyCall_eq]
  cases hs : c.swap with
  | false =>
      simp only [if_false, Bool.false_eq_true]
      exact update_step_single c.isAdd a b c.timestamp db k t hwf hv
  | true =>
      simp only [if_true]
      have hv' : ledgerView db b a = [(k, t)] := by rw [← ledgerView_comm]; exact hv
      have h := update_step_single c.isAdd b a c.timestamp db k t hwf hv'
      constructor
      · intro hlt
        obtain ⟨hview, hwf'⟩ := h.1 hlt
        exact ⟨by rw [ledgerView_comm]; exact hview, hwf'⟩
      · exact h.2

theorem runCalls_cons (a b : String) (c : Call) (cs : List Call) (db : DB) :
    runCalls a b (c :: cs) db = runCalls a b cs (applyCall a b c db) := rfl

theorem lww_cons (v : Bool × Int) (c : Call) (cs : List Call) :
    lww v (c :: cs) = lww (if v.2 < c.timestamp then (c.isAdd, c.timestamp) else v) cs := rfl

/-- Running calls from a single-record ledger tracks the abstract
last-writer-wins register. -/
theorem runCalls_single_view : ∀ (cs : List Call) (db : DB) (a b : String)
    (k : Bool) (t : Int), connWF db → ledgerView db a b = [(k, t)] →
    ledgerView (runCalls a b cs db) a b = [lww (k, t) cs]
      ∧ connWF (runCalls a b cs db) := by
  intro cs
  induction cs with
  | nil =>
      intro db a b k t hwf hv
      exact ⟨hv, hwf⟩
  | cons c cs ih =>
      intro db a b k t hwf hv
      rw [runCalls_cons, lww_cons]
      have hstep := applyCall_single a b c db k t hwf hv
      by_cases hlt : t < c.timestamp
      · obtain ⟨hview, hwf'⟩ := hstep.1 hlt
        rw [if_pos hlt]
        exact ih (applyCall a b c db) a b c.isAdd c.timestamp hwf' hview
      · rw [hstep.2 hlt, if_neg hlt]
        exact ih db a b k t hwf hv

/-- The last-writer-wins register keeps a value that is either the seed or a
call's, and its timestamp dominates the seed and every call. -/
theorem lww_spec : ∀ (cs : List Call) (v : Bool × Int),
    (lww v cs = v ∨ ∃ c ∈ cs, lww v cs = (c.isAdd, c.timestamp))
      ∧ v.2 ≤ (lww v cs).2 ∧ ∀ c ∈ cs, c.timestamp ≤ (lww v cs).2 := by
  intro cs
  induction cs with
  | nil =>
      intro v
      exact ⟨Or.inl rfl, le_refl _, by simp⟩
  | cons c cs ih =>
      intro v
      rw [lww_cons]
      by_cases h : v.2 < c.timestamp
      · rw [if_pos h]
        obtain ⟨hw, hle, hall⟩ := ih (c.isAdd, c.timestamp)
        refine ⟨?_, le_trans (le_of_lt h) hle, ?_⟩
        · rcases hw with hw | ⟨c', hc', hw⟩
          · exact Or.inr ⟨c, List.mem_cons_self _ _, hw⟩
          · exact Or.inr ⟨c', List.mem_cons_of_mem _ hc', hw⟩
        · intro c' hc'
          rcases List.mem_cons.mp hc' with rfl | hc'
          · exact hle
          · exact hall c' hc'
      · rw [if_neg h]
        obtain ⟨hw, hle, hall⟩ := ih v
        refine ⟨?_, hle, ?_⟩
        · rcases hw with hw | ⟨c', hc', hw⟩
          · exact Or.inl hw
          · exact Or.inr ⟨c', List.mem_cons_of_mem _ hc', hw⟩
        · intro c' hc'
          rcases List.mem_cons.mp hc' with rfl | hc'
          · exact le_trans (not_lt.mp h) hle
          · exact hall c' hc'

/-- After a nonempty run from the empty database the pair's ledger is one
record, belonging to a call whose timestamp dominates all calls. -/
theorem runCalls_view_spec (a b : String) (c0 : Call) (cs : List Call) :
    ∃ c, c ∈ c0 :: cs ∧
      ledgerView (runCalls a b (c0 :: cs) emptyDB) a b = [(c.isAdd, c.timestamp)]
      ∧ ∀ c' ∈ c0 :: cs, c'.timestamp ≤ c.timestamp := by
  have hwf0 : connWF emptyDB := by
    intro e he
    simp [emptyDB] at he
  have hv0 : ledgerView emptyDB a b = [] := rfl
  obtain ⟨hview1, hwf1⟩ := applyCall_from_empty a b c0 emptyDB hwf0 hv0
  rw [runCalls_cons]
  obtain ⟨hview, _⟩ := runCalls_single_view cs (applyCall a b c0 emptyDB) a b
    c0.isAdd c0.timestamp hwf1 hview1
  obtain ⟨hw, hle, hall⟩ := lww_spec cs (c0.isAdd, c0.timestamp)
  rcases hw with hw | ⟨c, hc, hw⟩
  · refine ⟨c0, List.mem_cons_self _ _, by rw [hview, hw], ?_⟩
    intro c' hc'
    rcases List.mem_cons.mp hc' with rfl | hc'
    · exact le_refl _
    · have h := hall c' hc'
      rw [hw] at h
      exact h
  · refine ⟨c, List.mem_cons_of_mem _ hc, by rw [hview, hw], ?_⟩
    intro c' hc'
    rcases List.mem_cons.mp hc' with rfl | hc'
    · rw [hw] at hle
      exact hle
    · have h := hall c' hc'
      rw [hw] at h
      exact h

/-! C1: the connection-ledger arbitration rule. -/

/-- C1: a write is accepted iff strictly newer than the most recent record of
both kinds (vacuously when a kind has none); an accepted write leaves exactly
its own record live for the pair; a rejected write changes nothing and raises
no error; and a sequence of calls on a pair from the empty ledger leaves
exactly one live record — that of the call with the (unique) globally maximum
timestamp. -/
theorem c1_connection_arbitration :
    (∀ (db : DB) (k1 k2 : String) (ts : Int),
        connAccepted k1 k2 ts db = true ↔
          (∀ e ∈ pairEdges db.connections k1 k2, e.timestamp < ts) ∧
            ∀ e ∈ pairEdges db.removed k1 k2, e.timestamp < ts)
      ∧ (∀ (isConn : Bool) (k1 k2 : String) (ts : Int) (db : DB), connWF db →
          connAccepted k1 k2 ts db = true →
            ledgerView (updateAndCleanConnections isConn k1 k2 ts db) k1 k2
              = [(isConn, ts)])
      ∧ (∀ (isConn : Bool) (k1 k2 : String) (ts : Int) (db : DB),
          connAccepted k1 k2 ts db = false →
            updateAndCleanConnections isConn k1 k2 ts db = db)
      ∧ ∀ (a b : String) (cs : List Call) (c : Call), c ∈ cs →
          (∀ c' ∈ cs, c' ≠ c → c'.timestamp < c.timestamp) →
          ledgerView (runCalls a b cs emptyDB) a b = [(c.isAdd, c.timestamp)] := by
  refine ⟨fun db k1 k2 ts => connAccepted_iff k1 k2 ts db,
    updateAndClean_accepted_view, updateAndClean_rejected,
    fun a b cs c hc hmax => ?_⟩
  cases cs with
  | nil => exact absurd hc (List.not_mem_nil c)
  | cons c0 rest =>
      obtain ⟨w, hwmem, hview, hwmax⟩ := runCalls_view_spec a b c0 rest
      have hwc : w = c := by
        by_contra hne
        exact absurd (hwmax c hc) (not_le.mpr (hmax w hwmem hne))
      rw [hview, hwc]

/-- C1 witness: a rejected stale write is dropped and the maximal-timestamp
call's record survives a concrete three-call run. -/
theorem c1_connection_arbitration_witness :
    ledgerView (updateAndCleanConnections true "a" "b" 5 emptyDB) "a" "b" = [(true, 5)]
      ∧ ledgerView
          (runCalls "a" "b" [⟨true, false, 1⟩, ⟨false, false, 3⟩, ⟨true, true, 2⟩] emptyDB)
          "a" "b" = [(false, 3)] :=
  ⟨c1_connection_arbitration.2.1 true "a" "b" 5 emptyDB (by decide) (by decide),
    c1_connection_arbitration.2.2.2 "a" "b"
      [⟨true, false, 1⟩, ⟨false, false, 3⟩, ⟨true, true, 2⟩] ⟨false, false, 3⟩
      (by decide) (by decide)⟩

/-! C4: order-independence of the arbitration rule. -/

/-- C4 counterexample: two interleavings of the same two-call multiset — an
add and a removal sharing timestamp 5 — end with different live records, so
the arbitration rule is not order-independent for arbitrary timestamps. -/
theorem c4_counterexample :
    ([⟨true, false, 5⟩, ⟨false, false, 5⟩] : List Call).Perm
        [⟨false, false, 5⟩, ⟨true, false, 5⟩]
      ∧ ledgerView (runCalls "a" "b" [⟨true, false, 5⟩, ⟨false, false, 5⟩] emptyDB) "a" "b"
        ≠ ledgerView (runCalls "a" "b" [⟨false, false, 5⟩, ⟨true, false, 5⟩] emptyDB) "a" "b" := by
  constructor
  · decide
  · decide

/-- C4 amended: order-independence holds once every call attaining the
multiset's maximal timestamp has the same kind — in particular whenever the
call timestamps are pairwise distinct.  (The counterexample shows the
unrestricted claim fails when an add and a removal tie for the maximum.) -/
theorem c4_order_independence :
    ∀ (a b : String) (cs cs' : List Call), cs.Perm cs' →
      (∀ c1 ∈ cs, ∀ c2 ∈ cs, (∀ c' ∈ cs, c'.timestamp ≤ c1.timestamp) →
        (∀ c' ∈ cs, c'.timestamp ≤ c2.timestamp) → c1.isAdd = c2.isAdd) →
      ledgerView (runCalls a b cs emptyDB) a b
        = ledgerView (runCalls a b cs' emptyDB) a b := by
  intro a b cs cs' hperm hsame
  cases cs with
  | nil =>
      rw [← hperm.nil_eq]
  | cons c0 rest =>
      cases cs' with
      | nil => exact absurd hperm.symm (by simp)
      | cons c0' rest' =>
          obtain ⟨w, hwmem, hview, hwmax⟩ := runCalls_view_spec a b c0 rest
          obtain ⟨w', hwmem', hview', hwmax'⟩ := runCalls_view_spec a b c0' rest'
          have hwmem'' : w' ∈ c0 :: rest := hperm.symm.subset hwmem'
          have hwmax'' : ∀ c' ∈ c0 :: rest, c'.timestamp ≤ w'.timestamp :=
            fun c' hc' => hwmax' c' (hperm.subset hc')
          have hts : w.timestamp = w'.timestamp :=
            le_antisymm (hwmax'' w hwmem) (hwmax w' hwmem'')
          have hkind : w.isAdd = w'.isAdd := hsame w hwmem w' hwmem'' hwmax hwmax''
          rw [hview, hview', hkind, hts]

/-! C6: revocable account links. -/

/-- The `latest` subquery returns exactly the key of a user's
timestamp-maximal link, whenever document keys are unique and the user's
link timestamps are distinct. -/
theorem latestLinkKey_spec (coll : List AccountLink) (v : String)
    (hkeys : (coll.map (·.key)).Nodup)
    (htimes : ∀ r ∈ coll, ∀ r' ∈ coll,
      r.user = r'.user → r.timestamp = r'.timestamp → r = r')
    (r : AccountLink) (hr : r ∈ coll) (hrv : r.user = v) :
    latestLinkKey coll v = some r.key ↔
      ∀ r' ∈ coll, r'.user = v → r'.timestamp ≤ r.timestamp := by
  unfold latestLinkKey
  have hperm := List.perm_insertionSort linkTsDesc
    (coll.filter (fun u3 => decide (u3.user = v)))
  have hsorted : (List.insertionSort linkTsDesc
      (coll.filter (fun u3 => decide (u3.user = v)))).Sorted linkTsDesc :=
    List.sorted_insertionSort _ _
  have hrfl : r ∈ coll.filter (fun u3 => decide (u3.user = v)) :=
    List.mem_filter.mpr ⟨hr, decide_eq_true hrv⟩
  cases hs : List.insertionSort linkTsDesc
      (coll.filter (fun u3 => decide (u3.user = v))) with
  | nil =>
      rw [hs] at hperm
      exact absurd (hperm.symm.subset hrfl) (List.not_mem_nil r)
  | cons h0 tl =>
      rw [hs] at hperm hsorted
      have h0mem := hperm.subset (List.mem_cons_self h0 tl)
      have h0v : h0.user = v :=
        of_decide_eq_true (List.mem_filter.mp h0mem).2
      have h0max : ∀ x ∈ coll.filter (fun u3 => decide (u3.user = v)),
          x.timestamp ≤ h0.timestamp := by
        intro x hx
        rcases List.mem_cons.mp (hperm.symm.subset hx) with rfl | hx'
        · exact le_refl _
        · exact List.rel_of_sorted_cons hsorted x hx'
      simp only [List.head?_cons, Option.map_some', Option.some.injEq]
      constructor
      · intro hk
        have h0r : h0 = r :=
          List.inj_on_of_nodup_map hkeys (List.mem_of_mem_filter h0mem) hr hk
        intro r' hr' hr'v
        rw [← h0r]
        exact h0max r' (List.mem_filter.mpr ⟨hr', decide_eq_true hr'v⟩)
      · intro hmax
        have h1 : h0.timestamp ≤ r.timestamp :=
          hmax h0 (List.mem_of_mem_filter h0mem) h0v
        have h2 : r.timestamp ≤ h0.timestamp := h0max r hrfl
        have h0r : h0 = r := htimes h0 (List.mem_of_mem_filter h0mem) r hr
          (by rw [h0v, hrv]) (le_antisymm h1 h2)
        rw [h0r]

/-- C6: `revocableLinksFor` returns the user's account ids other than `id`
(the current one) exactly when no other user's current — timestamp-maximal —
link points to the same account id. -/
theorem c6_revocable_links (coll : List AccountLink) (id user : String)
    (hkeys : (coll.map (·.key)).Nodup)
    (htimes : ∀ r ∈ coll, ∀ r' ∈ coll,
      r.user = r'.user → r.timestamp = r'.timestamp → r = r') :
    ∀ X : String, X ∈ revocableIds coll id user ↔
      (∃ r ∈ coll, r.user = user ∧ r.account = X) ∧ X ≠ id ∧
        ¬ ∃ r2 ∈ coll, r2.user ≠ user ∧ r2.account = X ∧
          ∀ r' ∈ coll, r'.user = r2.user → r'.timestamp ≤ r2.timestamp := by
  intro X
  unfold revocableIds
  constructor
  · intro hmem
    obtain ⟨u, hu, hacc⟩ := List.mem_map.mp hmem
    obtain ⟨hu1, hu2⟩ := List.mem_filter.mp hu
    obtain ⟨hu0, hp1⟩ := List.mem_filter.mp hu1
    obtain ⟨hne, huser⟩ := of_decide_eq_true hp1
    subst hacc
    refine ⟨⟨u, hu0, huser, rfl⟩, hne, ?_⟩
    rintro ⟨r2, hr2, hr2u, hr2X, hr2max⟩
    have hkey : latestLinkKey coll r2.user = some r2.key :=
      (latestLinkKey_spec coll r2.user hkeys htimes r2 hr2 rfl).mpr hr2max
    have : coll.any (fun u2 =>
        decide (u2.account = u.account ∧ u2.user ≠ u.user) &&
          (latestLinkKey coll u2.user == some u2.key)) = true := by
      rw [List.any_eq_true]
      refine ⟨r2, hr2, ?_⟩
      rw [Bool.and_eq_true, decide_eq_true_eq, beq_iff_eq]
      exact ⟨⟨by rw [hr2X], by rw [huser]; exact hr2u⟩, hkey⟩
    rw [Bool.not_eq_true'] at hu2
    rw [hu2] at this
    exact absurd this (by simp)
  · rintro ⟨⟨r, hr, hruser, hracc⟩, hne, hnouse⟩
    refine List.mem_map.mpr ⟨r, List.mem_filter.mpr ⟨List.mem_filter.mpr
      ⟨hr, decide_eq_true ⟨by rw [hracc]; exact hne, hruser⟩⟩, ?_⟩, hracc⟩
    rw [Bool.not_eq_true']
    rw [← Bool.not_eq_true, List.any_eq_true]
    rintro ⟨u2, hu2, hp⟩
    rw [Bool.and_eq_true, decide_eq_true_eq, beq_iff_eq] at hp
    obtain ⟨⟨hacc2, huser2⟩, hkey2⟩ := hp
    have hmax2 : ∀ r' ∈ coll, r'.user = u2.user → r'.timestamp ≤ u2.timestamp :=
      (latestLinkKey_spec coll u2.user hkeys htimes u2 hu2 rfl).mp hkey2
    exact hnouse ⟨u2, hu2, by rw [hruser] at huser2; exact huser2,
      by rw [hacc2, hracc], hmax2⟩

/-- C6 witness: with U's links X then Y (Y current), X is not revocable while
another user V's current link is X, and becomes revocable once V's current
link moves on to Z. -/
theorem c6_revocable_links_witness :
    ¬ ("X" ∈ revocableIds collC6 "Y" "U")
      ∧ ("X" ∈ revocableIds collC6b "Y" "U") := by
  constructor
  · intro hmem
    exact (((c6_revocable_links collC6 "Y" "U" (by decide) (by decide) "X").mp
      hmem).2.2) (by decide)
  · exact (c6_revocable_links collC6b "Y" "U" (by decide) (by decide) "X").mpr
      ⟨⟨⟨1, "U", "X", 1⟩, by decide, rfl, rfl⟩, by decide, by decide⟩

/-- C4 witness: two interleavings of the same calls with distinct timestamps
agree on the final record. -/
theorem c4_order_independence_witness :
    ledgerView (runCalls "a" "b" [⟨true, false, 1⟩, ⟨false, false, 2⟩] emptyDB) "a" "b"
      = ledgerView (runCalls "a" "b" [⟨false, false, 2⟩, ⟨true, false, 1⟩] emptyDB) "a" "b" :=
  c4_order_independence "a" "b" _ _ (by decide) (by decide)

/-! C7: `createGroup`. -/

/-- With three pairwise distinct keys and three-founder groups, the source's
membership-based duplicate test coincides with founder-set equality. -/
theorem isDuplicateIn_iff (coll : List Group) (k1 k2 k3 : String)
    (hd12 : k1 ≠ k2) (hd13 : k1 ≠ k3) (hd23 : k2 ≠ k3)
    (h3 : ∀ g ∈ coll, g.founders.length = 3) :
    isDuplicateIn coll k1 k2 k3 = true ↔
      ∃ g ∈ coll, g.founders.toFinset = {k1, k2, k3} := by
  unfold isDuplicateIn
  rw [List.any_eq_true]
  constructor
  · rintro ⟨g, hg, hp⟩
    rw [decide_eq_true_eq] at hp
    obtain ⟨hm1, hm2, hm3⟩ := hp
    refine ⟨g, hg, ?_⟩
    have hsub : ({k1, k2, k3} : Finset String) ⊆ g.founders.toFinset := by
      intro x hx
      simp only [Finset.mem_insert, Finset.mem_singleton] at hx
      rcases hx with rfl | rfl | rfl
      · exact List.mem_toFinset.mpr hm1
      · exact List.mem_toFinset.mpr hm2
      · exact List.mem_toFinset.mpr hm3
    have hcard : ({k1, k2, k3} : Finset String).card = 3 := by
      rw [Finset.card_insert_of_not_mem (by simp [hd12, hd13]),
        Finset.card_insert_of_not_mem (by simp [hd23]), Finset.card_singleton]
    have hle : g.founders.toFinset.card ≤ ({k1, k2, k3} : Finset String).card := by
      rw [hcard]
      calc g.founders.toFinset.card ≤ g.founders.length := List.toFinset_card_le _
        _ = 3 := h3 g hg
    exact (Finset.eq_of_subset_of_card_le hsub hle).symm
  · rintro ⟨g, hg, hset⟩
    refine ⟨g, hg, decide_eq_true ?_⟩
    refine ⟨?_, ?_, ?_⟩ <;>
      · rw [← List.mem_toFinset, hset]
        simp

/-- C7: `createGroup` fails on an existing Forming or Established group with
the same founder set (order-independently), fails when the creator is not
connected to both cofounders, and otherwise creates a Forming group with
canonically sorted founders and a membership edge for the creator only. -/
theorem c7_create_group (db : DB) (k1 k2 k3 : String) (ts : Int)
    (hd12 : k1 ≠ k2) (hd13 : k1 ≠ k3) (hd23 : k2 ≠ k3)
    (h3f : ∀ g, g ∈ db.newGroups ∨ g ∈ db.groups → g.founders.length = 3)
    (hfresh : ∀ e ∈ db.usersInNewGroups, e.toId < db.nextKey) :
    (((∃ g ∈ db.newGroups, g.founders.toFinset = {k1, k2, k3})
        ∨ ∃ g ∈ db.groups, g.founders.toFinset = {k1, k2, k3}) →
        createGroup k1 k2 k3 ts db = .error .duplicateGroup)
      ∧ (¬ ((∃ g ∈ db.newGroups, g.founders.toFinset = {k1, k2, k3})
            ∨ ∃ g ∈ db.groups, g.founders.toFinset = {k1, k2, k3}) →
          (k2 ∉ userConnections db k1 ∨ k3 ∉ userConnections db k1) →
          createGroup k1 k2 k3 ts db = .error .notConnected)
      ∧ (¬ ((∃ g ∈ db.newGroups, g.founders.toFinset = {k1, k2, k3})
            ∨ ∃ g ∈ db.groups, g.founders.toFinset = {k1, k2, k3}) →
          k2 ∈ userConnections db k1 → k3 ∈ userConnections db k1 →
          createGroup k1 k2 k3 ts db = .ok
            ({ db with
                newGroups := db.newGroups ++
                  [⟨db.nextKey, 0, true, ts, List.insertionSort strAsc [k1, k2, k3]⟩],
                usersInNewGroups := db.usersInNewGroups ++
                  [⟨db.nextKey + 1, k1, db.nextKey, ts⟩],
                nextKey := db.nextKey + 2 },
              ⟨db.nextKey, 0, true, ts, List.insertionSort strAsc [k1, k2, k3]⟩)
          ∧ groupMembers
              { db with
                newGroups := db.newGroups ++
                  [⟨db.nextKey, 0, true, ts, List.insertionSort strAsc [k1, k2, k3]⟩],
                usersInNewGroups := db.usersInNewGroups ++
                  [⟨db.nextKey + 1, k1, db.nextKey, ts⟩],
                nextKey := db.nextKey + 2 } db.nextKey true = [k1])
      ∧ ∀ l : List String, l.Perm [k1, k2, k3] →
          List.insertionSort strAsc l = List.insertionSort strAsc [k1, k2, k3] := by
  have hdup : (isDuplicateIn db.newGroups k1 k2 k3
        || isDuplicateIn db.groups k1 k2 k3) = true ↔
      ((∃ g ∈ db.newGroups, g.founders.toFinset = {k1, k2, k3})
        ∨ ∃ g ∈ db.groups, g.founders.toFinset = {k1, k2, k3}) := by
    rw [Bool.or_eq_true,
      isDuplicateIn_iff db.newGroups k1 k2 k3 hd12 hd13 hd23
        (fun g hg => h3f g (Or.inl hg)),
      isDuplicateIn_iff db.groups k1 k2 k3 hd12 hd13 hd23
        (fun g hg => h3f g (Or.inr hg))]
  refine ⟨?_, ?_, ?_, ?_⟩
  · intro h
    unfold createGroup
    rw [if_pos (hdup.mpr h)]
  · intro h hconn
    unfold createGroup
    rw [if_neg (by rw [hdup]; exact h), if_pos hconn]
  · intro h hc2 hc3
    constructor
    · unfold createGroup
      rw [if_neg (by rw [hdup]; exact h),
        if_neg (by rw [not_or, not_not, not_not]; exact ⟨hc2, hc3⟩)]
      rfl
    · show (((db.usersInNewGroups ++
            [(⟨db.nextKey + 1, k1, db.nextKey, ts⟩ : MembershipEdge)]).filter
          (fun i : MembershipEdge => decide (i.toId = db.nextKey))).map
            (fun x : MembershipEdge => x.fromId)).dedup = [k1]
      rw [List.filter_append]
      have hold : db.usersInNewGroups.filter
          (fun i => decide (i.toId = db.nextKey)) = [] := by
        rw [List.filter_eq_nil_iff]
        intro e he
        simp only [decide_eq_true_eq]
        exact Nat.ne_of_lt (hfresh e he)
      rw [hold, List.nil_append, List.filter_cons, if_pos (by simp), List.filter_nil]
      simp
  · intro l hl
    exact List.eq_of_perm_of_sorted
      ((List.perm_insertionSort strAsc l).trans
        (hl.trans (List.perm_insertionSort strAsc [k1, k2, k3]).symm))
      (List.sorted_insertionSort strAsc l)
      (List.sorted_insertionSort strAsc [k1, k2, k3])

/-- C7 witness: user a, connected to b and c, creates the group; the creator
is its only forming member. -/
theorem c7_create_group_witness :
    createGroup "a" "b" "c" 3 dbC7 = .ok
        ({ dbC7 with
            newGroups := dbC7.newGroups ++
              [⟨5, 0, true, 3, List.insertionSort strAsc ["a", "b", "c"]⟩],
            usersInNewGroups := dbC7.usersInNewGroups ++ [⟨6, "a", 5, 3⟩],
            nextKey := 7 },
          ⟨5, 0, true, 3, List.insertionSort strAsc ["a", "b", "c"]⟩)
      ∧ groupMembers
          { dbC7 with
            newGroups := dbC7.newGroups ++
              [⟨5, 0, true, 3, List.insertionSort strAsc ["a", "b", "c"]⟩],
            usersInNewGroups := dbC7.usersInNewGroups ++ [⟨6, "a", 5, 3⟩],
            nextKey := 7 } 5 true = ["a"] :=
  (c7_create_group dbC7 "a" "b" "c" 3 (by decide) (by decide) (by decide)
    (by intro g hg; rcases hg with hg | hg <;> simp [dbC7] at hg)
    (by intro e he; simp [dbC7] at he)).2.2.1
    (by rintro (⟨g, hg, _⟩ | ⟨g, hg, _⟩) <;> simp [dbC7] at hg)
    (by decide) (by decide)

/-! C3 and C8: joining a Forming group. -/

/-- `addMembership` on a Forming group, for a founder: the source's lookup
and access check resolved. -/
theorem addMembership_forming_eq (db : DB) (groupId : Nat) (key : String)
    (ts : Int) (g : Group)
    (hnotEst : db.groups.filter (fun i => decide (i.key = groupId)) = [])
    (hnew : db.newGroups.filter (fun i => decide (i.key = groupId)) = [g])
    (hfounder : key ∈ g.founders) :
    addMembership groupId key ts db =
      (let db1 := addUserToGroup true groupId key ts db
       let gMembers := db1.usersInNewGroups.filter (fun i => decide (i.toId = groupId))
       let memberIds := (gMembers.map (·.fromId)).dedup
       if memberIds.length = g.founders.length then
         let db2 := { db1 with groups := db1.groups ++
           [{ key := g.key, score := 0, isNew := false,
              timestamp := g.timestamp, founders := g.founders }] }
         let db3 := gMembers.foldl migrateStep db2
         Except.ok { db3 with
           newGroups := db3.newGroups.filter (fun i => decide (i.key ≠ g.key)) }
       else Except.ok db1) := by
  unfold addMembership
  rw [hnotEst, hnew]
  simp [hfounder]

/-- C8 counterexample: founder a of a Forming group joins a second time; the
join succeeds and afterwards two MembershipEdges exist for the (a, group)
pair, so membership edges are not upserted and not unique per pair. -/
theorem c8_counterexample :
    (addMembership 1 "a" 5 dbC8).toOption.map
        (fun d => (d.usersInNewGroups.filter
          (fun e => decide (e.fromId = "a" ∧ e.toId = 1))).length) = some 2 := by
  decide

/-- C8 amended: `addUserToGroup` always inserts a fresh MembershipEdge, so a
founder's repeated join of a Forming group succeeds without error but
duplicates the (user, group) edge; the distinct-member view (`groupMembers`)
is unchanged up to order, so observable membership is preserved. -/
theorem c8_membership_duplicate_join (db : DB) (groupId : Nat) (key : String)
    (ts : Int) (g : Group)
    (hnotEst : db.groups.filter (fun i => decide (i.key = groupId)) = [])
    (hnew : db.newGroups.filter (fun i => decide (i.key = groupId)) = [g])
    (hfounder : key ∈ g.founders)
    (hmem : key ∈ groupMembers db groupId true)
    (hnoprom : (groupMembers db groupId true).length ≠ g.founders.length) :
    addMembership groupId key ts db = Except.ok (addUserToGroup true groupId key ts db)
      ∧ (addUserToGroup true groupId key ts db).usersInNewGroups
          = db.usersInNewGroups ++ [⟨db.nextKey, key, groupId, ts⟩]
      ∧ (groupMembers (addUserToGroup true groupId key ts db) groupId true).Perm
          (groupMembers db groupId true) := by
  have hkeyF : key ∈ (db.usersInNewGroups.filter
      (fun i => decide (i.toId = groupId))).map (fun x => x.fromId) :=
    List.mem_dedup.mp hmem
  have hview : groupMembers (addUserToGroup true groupId key ts db) groupId true
      = (((db.usersInNewGroups.filter (fun i => decide (i.toId = groupId))).map
          (fun x => x.fromId)) ++ [key]).dedup := by
    show (((db.usersInNewGroups ++
        [(⟨db.nextKey, key, groupId, ts⟩ : MembershipEdge)]).filter
          (fun i : MembershipEdge => decide (i.toId = groupId))).map
            (fun x : MembershipEdge => x.fromId)).dedup = _
    rw [List.filter_append, List.filter_cons, if_pos (by simp), List.filter_nil,
      List.map_append]
    rfl
  have hperm : (groupMembers (addUserToGroup true groupId key ts db) groupId true).Perm
      (groupMembers db groupId true) := by
    rw [hview]
    apply List.perm_of_nodup_nodup_toFinset_eq (List.nodup_dedup _) (List.nodup_dedup _)
    apply List.toFinset.ext
    intro x
    rw [List.mem_dedup, List.mem_dedup, List.mem_append, List.mem_singleton]
    constructor
    · rintro (hx | rfl)
      · exact hx
      · exact hkeyF
    · exact Or.inl
  refine ⟨?_, rfl, hperm⟩
  rw [addMembership_forming_eq db groupId key ts g hnotEst hnew hfounder]
  have hlen : ((((addUserToGroup true groupId key ts db).usersInNewGroups.filter
      (fun i => decide (i.toId = groupId))).map (fun x => x.fromId)).dedup).length
      = (groupMembers db groupId true).length := hperm.length_eq
  rw [if_neg (by rw [hlen]; exact hnoprom)]

/-- C8 witness: the concrete duplicate join of founder a. -/
theorem c8_membership_duplicate_join_witness :
    addMembership 1 "a" 5 dbC8 = Except.ok (addUserToGroup true 1 "a" 5 dbC8)
      ∧ (addUserToGroup true 1 "a" 5 dbC8).usersInNewGroups
          = dbC8.usersInNewGroups ++ [⟨20, "a", 1, 5⟩]
      ∧ (groupMembers (addUserToGroup true 1 "a" 5 dbC8) 1 true).Perm
          (groupMembers dbC8 1 true) :=
  c8_membership_duplicate_join dbC8 1 "a" 5 ⟨1, 0, true, 0, ["a", "b", "c"]⟩
    (by decide) (by decide) (by decide) (by decide) (by decide)

/-- Folding the promotion loop over a snapshot of documents: the established
edges gain one copy (same user, group, timestamp) per document, the forming
collection loses exactly the documents' keys, and groups are untouched. -/
theorem migrate_fold : ∀ (docs : List MembershipEdge) (d : DB),
    ((docs.foldl migrateStep d).usersInGroups).map mproj
        = (d.usersInGroups).map mproj ++ docs.map mproj
      ∧ (docs.foldl migrateStep d).usersInNewGroups
        = d.usersInNewGroups.filter (fun e => decide (e.key ∉ docs.map (·.key)))
      ∧ (docs.foldl migrateStep d).newGroups = d.newGroups
      ∧ (docs.foldl migrateStep d).groups = d.groups := by
  intro docs
  induction docs with
  | nil =>
      intro d
      refine ⟨by simp, ?_, rfl, rfl⟩
      have h : List.filter
          (fun e : MembershipEdge => decide (e.key ∉ ([] : List MembershipEdge).map (·.key)))
          d.usersInNewGroups = d.usersInNewGroups := by
        rw [List.filter_eq_self]
        intro e _
        simp
      exact h.symm
  | cons doc docs ih =>
      intro d
      obtain ⟨h1, h2, h3, h4⟩ := ih (migrateStep d doc)
      refine ⟨?_, ?_, h3, h4⟩
      · rw [List.foldl_cons, h1]
        show (d.usersInGroups ++
          [(⟨d.nextKey, doc.fromId, doc.toId, doc.timestamp⟩ : MembershipEdge)]).map mproj
            ++ _ = _
        rw [List.map_append, List.map_cons, List.append_assoc]
        rfl
      · rw [List.foldl_cons, h2]
        show (d.usersInNewGroups.filter
            (fun e => decide (e.key ≠ doc.key))).filter
              (fun e => decide (e.key ∉ docs.map (·.key))) = _
        rw [List.filter_filter]
        apply List.filter_congr
        intro e _
        rw [← Bool.decide_and, decide_eq_decide]
        simp only [List.map_cons, List.mem_cons, not_or]
        constructor
        · rintro ⟨ha, hb⟩
          exact ⟨hb, ha⟩
        · rintro ⟨ha, hb⟩
          exact ⟨hb, ha⟩

/-- C3: when a founder's join raises the count of distinct joined founders
to the founder-set size (3), the group is promoted: an Established group
record is created carrying over the founders, timestamp and score (the score
hypothesis `g.score = 0` holds for every group `createGroup` makes — first
conjunct), every Forming MembershipEdge is re-created in the Established
namespace with the same user and timestamp, the Forming MembershipEdges and
the Forming group record are deleted, and all three founders end up
Established members. -/
theorem c3_promotion (db : DB) (groupId : Nat) (key : String) (ts : Int) (g : Group)
    (hnotEst : db.groups.filter (fun i => decide (i.key = groupId)) = [])
    (hnew : db.newGroups.filter (fun i => decide (i.key = groupId)) = [g])
    (hfounder : key ∈ g.founders)
    (hscore : g.score = 0)
    (hlen3 : g.founders.length = 3)
    (hnd : g.founders.Nodup)
    (hsub : ∀ e ∈ db.usersInNewGroups, e.toId = groupId → e.fromId ∈ g.founders)
    (hcount : (((db.usersInNewGroups.filter (fun i => decide (i.toId = groupId))).map
        (fun x => x.fromId) ++ [key]).dedup).length = g.founders.length) :
    (∀ (db0 : DB) (k1 k2 k3 : String) (ts0 : Int) (p : DB × Group),
        createGroup k1 k2 k3 ts0 db0 = Except.ok p → p.2.score = 0)
      ∧ ∃ db', addMembership groupId key ts db = Except.ok db'
      ∧ db'.groups = db.groups ++
          [{ key := g.key, score := g.score, isNew := false,
             timestamp := g.timestamp, founders := g.founders }]
      ∧ db'.usersInGroups.map mproj
          = db.usersInGroups.map mproj
            ++ (db.usersInNewGroups.filter (fun i => decide (i.toId = groupId))).map mproj
            ++ [(key, groupId, ts)]
      ∧ (∀ f ∈ g.founders, f ∈ groupMembers db' groupId false)
      ∧ db'.usersInNewGroups.filter (fun i => decide (i.toId = groupId)) = []
      ∧ db'.newGroups.filter (fun i => decide (i.key = groupId)) = [] := by
  refine ⟨?_, ?_⟩
  · intro db0 k1 k2 k3 ts0 p h
    unfold createGroup at h
    dsimp only at h
    split at h
    · exact absurd h (by simp)
    · split at h
      · exact absurd h (by simp)
      · injection h with h2
        rw [← h2]
  have hgkey : g.key = groupId := by
    have hgmem : g ∈ db.newGroups.filter (fun i => decide (i.key = groupId)) := by
      rw [hnew]
      exact List.mem_singleton_self g
    exact of_decide_eq_true (List.mem_filter.mp hgmem).2
  have hgm : (addUserToGroup true groupId key ts db).usersInNewGroups.filter
      (fun i => decide (i.toId = groupId))
      = db.usersInNewGroups.filter (fun i => decide (i.toId = groupId))
        ++ [⟨db.nextKey, key, groupId, ts⟩] := by
    show (db.usersInNewGroups ++ [(⟨db.nextKey, key, groupId, ts⟩ : MembershipEdge)]).filter _ = _
    rw [List.filter_append, List.filter_cons, if_pos (by simp), List.filter_nil]
  have hcond : ((((addUserToGroup true groupId key ts db).usersInNewGroups.filter
      (fun i => decide (i.toId = groupId))).map (fun x => x.fromId)).dedup).length
      = g.founders.length := by
    rw [hgm, List.map_append]
    exact hcount
  have heq : addMembership groupId key ts db = Except.ok
      { (((addUserToGroup true groupId key ts db).usersInNewGroups.filter
            (fun i => decide (i.toId = groupId))).foldl migrateStep
          { (addUserToGroup true groupId key ts db) with
            groups := (addUserToGroup true groupId key ts db).groups ++
              [{ key := g.key, score := 0, isNew := false,
                 timestamp := g.timestamp, founders := g.founders }] }) with
        newGroups := ((((addUserToGroup true groupId key ts db).usersInNewGroups.filter
            (fun i => decide (i.toId = groupId))).foldl migrateStep
          { (addUserToGroup true groupId key ts db) with
            groups := (addUserToGroup true groupId key ts db).groups ++
              [{ key := g.key, score := 0, isNew := false,
                 timestamp := g.timestamp, founders := g.founders }] }).newGroups).filter
            (fun i => decide (i.key ≠ g.key)) } := by
    rw [addMembership_forming_eq db groupId key ts g hnotEst hnew hfounder]
    show (if ((((addUserToGroup true groupId key ts db).usersInNewGroups.filter
          (fun i => decide (i.toId = groupId))).map (fun x => x.fromId)).dedup).length
          = g.founders.length then _ else _) = _
    rw [if_pos hcond]
  obtain ⟨m1, m2, m3, m4⟩ := migrate_fold
    ((addUserToGroup true groupId key ts db).usersInNewGroups.filter
      (fun i => decide (i.toId = groupId)))
    { (addUserToGroup true groupId key ts db) with
      groups := (addUserToGroup true groupId key ts db).groups ++
        [{ key := g.key, score := 0, isNew := false,
           timestamp := g.timestamp, founders := g.founders }] }
  refine ⟨_, heq, ?_, ?_, ?_, ?_, ?_⟩
  · -- groups conjunct
    rw [hscore]
    exact m4
  · -- usersInGroups projection conjunct
    rw [m1, hgm, List.map_append, ← List.append_assoc]
    rfl
  · -- founders are established members
    intro f hf
    have hsubF : ∀ x ∈ (db.usersInNewGroups.filter
        (fun i => decide (i.toId = groupId))).map (fun x => x.fromId) ++ [key],
        x ∈ g.founders := by
      intro x hx
      rcases List.mem_append.mp hx with hx | hx
      · obtain ⟨doc, hdoc, rfl⟩ := List.mem_map.mp hx
        obtain ⟨hd1, hd2⟩ := List.mem_filter.mp hdoc
        exact hsub doc hd1 (of_decide_eq_true hd2)
      · rw [List.mem_singleton.mp hx]
        exact hfounder
    have hfm : f ∈ (db.usersInNewGroups.filter
        (fun i => decide (i.toId = groupId))).map (fun x => x.fromId) ++ [key] := by
      have hss : (((db.usersInNewGroups.filter
          (fun i => decide (i.toId = groupId))).map (fun x => x.fromId) ++ [key]).toFinset)
          ⊆ g.founders.toFinset := fun x hx =>
        List.mem_toFinset.mpr (hsubF x (List.mem_toFinset.mp hx))
      have hc1 : ((db.usersInNewGroups.filter
          (fun i => decide (i.toId = groupId))).map (fun x => x.fromId) ++ [key]).toFinset.card
          = g.founders.length := by
        rw [List.card_toFinset]
        exact hcount
      have hc2 : g.founders.toFinset.card = g.founders.length :=
        List.toFinset_card_of_nodup hnd
      have hFeq := Finset.eq_of_subset_of_card_le hss (by rw [hc1, hc2])
      rw [← List.mem_toFinset, ← hFeq, List.mem_toFinset] at hf
      exact hf
    have hdoc : ∃ doc, doc ∈ (addUserToGroup true groupId key ts db).usersInNewGroups.filter
        (fun i => decide (i.toId = groupId)) ∧ doc.fromId = f ∧ doc.toId = groupId := by
      rcases List.mem_append.mp hfm with hx | hx
      · obtain ⟨doc, hdocm, hdf⟩ := List.mem_map.mp hx
        refine ⟨doc, ?_, hdf, of_decide_eq_true (List.mem_filter.mp hdocm).2⟩
        rw [hgm]
        exact List.mem_append.mpr (Or.inl hdocm)
      · refine ⟨⟨db.nextKey, key, groupId, ts⟩, ?_, (List.mem_singleton.mp hx).symm, rfl⟩
        rw [hgm]
        exact List.mem_append.mpr (Or.inr (List.mem_singleton_self _))
    obtain ⟨doc, hdocm, hdf, hdt⟩ := hdoc
    have hm : mproj doc ∈ (List.foldl migrateStep
        { (addUserToGroup true groupId key ts db) with
          groups := (addUserToGroup true groupId key ts db).groups ++
            [{ key := g.key, score := 0, isNew := false,
               timestamp := g.timestamp, founders := g.founders }] }
        ((addUserToGroup true groupId key ts db).usersInNewGroups.filter
          (fun i => decide (i.toId = groupId)))).usersInGroups.map mproj := by
      rw [m1]
      exact List.mem_append.mpr (Or.inr (List.mem_map.mpr ⟨doc, hdocm, rfl⟩))
    obtain ⟨e, hemem, heproj⟩ := List.mem_map.mp hm
    have hef : e.fromId = f := by
      have h := congrArg Prod.fst heproj
      simp only [mproj] at h
      rw [h, hdf]
    have het : e.toId = groupId := by
      have h := congrArg (fun p : String × Nat × Int => p.2.1) heproj
      simp only [mproj] at h
      rw [h, hdt]
    exact List.mem_dedup.mpr (List.mem_map.mpr
      ⟨e, List.mem_filter.mpr ⟨hemem, decide_eq_true het⟩, hef⟩)
  · -- forming membership edges cleared
    rw [List.filter_eq_nil_iff]
    intro e he
    rw [m2] at he
    obtain ⟨he1, he2⟩ := List.mem_filter.mp he
    rw [decide_eq_true_eq] at he2
    intro hto
    apply he2
    have he3 : e ∈ (addUserToGroup true groupId key ts db).usersInNewGroups.filter
        (fun i => decide (i.toId = groupId)) := List.mem_filter.mpr ⟨he1, hto⟩
    exact List.mem_map_of_mem (fun x => x.key) he3
  · -- forming group record removed
    have h6 : ∀ l : List Group, (l.filter (fun i => decide (i.key ≠ g.key))).filter
        (fun i => decide (i.key = groupId)) = [] := by
      intro l
      rw [List.filter_eq_nil_iff]
      intro e he
      obtain ⟨_, he2⟩ := List.mem_filter.mp he
      rw [decide_eq_true_eq] at he2
      intro hkey
      exact he2 (by rw [of_decide_eq_true hkey, hgkey])
    exact h6 _


/-- C3 witness: founder c's join promotes the concrete forming group of
`dbC3`, making a, b and c Established members with no Forming records left. -/
theorem c3_promotion_witness :
    (addMembership 1 "c" 9 dbC3).toOption.map (fun d =>
        (d.groups.map (fun gr => (gr.key, gr.score, gr.isNew, gr.timestamp, gr.founders)),
         d.usersInGroups.map mproj,
         d.usersInNewGroups.filter (fun i => decide (i.toId = 1)),
         d.newGroups.filter (fun i => decide (i.key = 1))))
      = some ([(1, 0, false, 7, ["a", "b", "c"])],
          [("a", 1, 7), ("b", 1, 8), ("c", 1, 9)], [], []) := by
  obtain ⟨db', heq, h2, h3, h4, h5, h6⟩ :=
    (c3_promotion dbC3 1 "c" 9 ⟨1, 0, true, 7, ["a", "b", "c"]⟩
      (by decide) (by decide) (by decide) rfl rfl (by decide)
      (by decide) (by decide)).2
  rw [heq]
  simp only [Except.toOption, Option.map_some']
  rw [h2, h3, h5, h6]
  rfl

theorem find?_keyed (f : Nat → Nat) : ∀ (ds : List Nat) (k : Nat),
    ((ds.map (fun a => (a, f a))).find? (fun row => row.1 == k))
      = if k ∈ ds then some (k, f k) else none := by
  intro ds k
  induction ds with
  | nil => simp
  | cons d ds ih =>
      rw [List.map_cons, List.find?_cons]
      by_cases hd : d = k
      · subst hd
        simp
      · have hbeq : ((d, f d).1 == k) = false := by
          simp [hd]
        rw [hbeq, ih]
        have hiff : (k ∈ d :: ds) ↔ k ∈ ds := by
          rw [List.mem_cons]
          exact or_iff_right (fun h => hd h.symm)
        rw [if_congr hiff rfl rfl]

theorem mem_collectCounts {l : List Nat} {k n : Nat} :
    (k, n) ∈ collectCounts l ↔ k ∈ l ∧ n = l.count k := by
  unfold collectCounts
  rw [List.mem_map]
  constructor
  · rintro ⟨a, ha, heq⟩
    injection heq with h1 h2
    subst h1
    exact ⟨List.mem_dedup.mp ha, h2.symm⟩
  · rintro ⟨hk, rfl⟩
    exact ⟨k, List.mem_dedup.mpr hk, rfl⟩

theorem nodup_member_fromIds (edges : List MembershipEdge) (k : Nat)
    (hnd : (edges.map (fun e => (e.fromId, e.toId))).Nodup) :
    ((edges.filter (fun e => decide (e.toId = k))).map (fun e => e.fromId)).Nodup := by
  have hsub : ((edges.filter (fun e => decide (e.toId = k))).map
      (fun e => (e.fromId, e.toId))).Sublist (edges.map (fun e => (e.fromId, e.toId))) :=
    (List.filter_sublist _).map _
  have hnd2 := hnd.sublist hsub
  have hrw : (edges.filter (fun e => decide (e.toId = k))).map (fun e => e.fromId)
      = ((edges.filter (fun e => decide (e.toId = k))).map
          (fun e => (e.fromId, e.toId))).map Prod.fst := by
    rw [List.map_map]
    exact rfl
  rw [hrw]
  rw [List.nodup_map_iff_inj_on hnd2]
  intro x hx y hy hxy
  obtain ⟨ex, hex, rfl⟩ := List.mem_map.mp hx
  obtain ⟨ey, hey, rfl⟩ := List.mem_map.mp hy
  have hxk : ex.toId = k := of_decide_eq_true (List.mem_filter.mp hex).2
  have hyk : ey.toId = k := of_decide_eq_true (List.mem_filter.mp hey).2
  simp only [Prod.mk.injEq]
  exact ⟨hxy, by rw [hxk, hyk]⟩

theorem userEligibleGroups_eq (db : DB) (userId : String) (connections : List String)
    (currentGroups : List Nat) :
    userEligibleGroups db userId connections currentGroups
      = loadGroups db (eligiblesOf db connections currentGroups) connections userId := rfl

/-- Lengths of the distinct-member views equal the raw edge counts when no
(user, group) membership pair is duplicated. -/
theorem member_lengths (db : DB) (connections : List String) (k : Nat)
    (hnd : (db.usersInGroups.map (fun e => (e.fromId, e.toId))).Nodup) :
    (matchingMembers db connections k).length
        = (db.usersInGroups.filter
            (fun e => decide (e.toId = k ∧ e.fromId ∈ connections))).length
      ∧ (groupMembers db k false).length
        = (db.usersInGroups.filter (fun e => decide (e.toId = k))).length := by
  have hnodup := nodup_member_fromIds db.usersInGroups k hnd
  have hdedup : ((db.usersInGroups.filter (fun e => decide (e.toId = k))).map
      (fun e => e.fromId)).dedup = (db.usersInGroups.filter
        (fun e => decide (e.toId = k))).map (fun e => e.fromId) :=
    List.dedup_eq_self.mpr hnodup
  constructor
  · show (((db.usersInGroups.filter (fun e => decide (e.toId = k))).map
        (fun e => e.fromId)).dedup.filter (fun m => decide (m ∈ connections))).length = _
    rw [hdedup, ← List.countP_eq_length_filter, List.countP_map,
      List.countP_eq_length_filter, List.filter_filter]
    congr 1
    apply List.filter_congr
    intro e _
    show (decide (e.fromId ∈ connections) && decide (e.toId = k)) = _
    rw [← Bool.decide_and, decide_eq_decide]
    exact ⟨fun h => ⟨h.2, h.1⟩, fun h => ⟨h.2, h.1⟩⟩
  · show (((db.usersInGroups.filter (fun e => decide (e.toId = k))).map
        (fun e => e.fromId)).dedup).length = _
    rw [hdedup, List.length_map]

/-- Membership in the computed eligibles: the group is outside
`currentGroups`, has at least 2 membership edges from the connections, and
those edges are a strict majority of its membership edges. -/
theorem mem_eligiblesOf (db : DB) (connections : List String) (currentGroups : List Nat)
    (k : Nat) :
    k ∈ eligiblesOf db connections currentGroups ↔
      (k ∉ currentGroups
        ∧ 2 ≤ (db.usersInGroups.filter
            (fun e => decide (e.toId = k ∧ e.fromId ∈ connections))).length
        ∧ (db.usersInGroups.filter
            (fun e => decide (e.toId = k ∧ e.fromId ∈ connections))).length * 2
          > (db.usersInGroups.filter (fun e => decide (e.toId = k))).length) := by
  simp only [eligiblesOf]
  set base := (db.usersInGroups.filter
      (fun edge => decide (edge.fromId ∈ connections ∧ edge.toId ∉ currentGroups))).map
        (fun x => x.toId) with hbase
  set candidates := List.insertionSort countDesc
    ((collectCounts base).filter (fun p => decide (2 ≤ p.2))) with hcand
  set groupIds := candidates.map (fun x => x.1) with hgroupIds
  set base2 := (db.usersInGroups.filter
      (fun ug => decide (ug.toId ∈ groupIds))).map (fun x => x.toId) with hbase2
  have hcand_mem : ∀ p : Nat × Nat, p ∈ candidates ↔
      p ∈ (collectCounts base).filter (fun p => decide (2 ≤ p.2)) := fun p =>
    (List.perm_insertionSort countDesc _).mem_iff
  have hbase_notin : ∀ j : Nat, j ∈ base → j ∉ currentGroups := by
    intro j hj
    obtain ⟨e, he, rfl⟩ := List.mem_map.mp hj
    exact (of_decide_eq_true (List.mem_filter.mp he).2).2
  have hbase_count : ∀ j : Nat, j ∉ currentGroups →
      base.count j = (db.usersInGroups.filter
        (fun e => decide (e.toId = j ∧ e.fromId ∈ connections))).length := by
    intro j hj
    rw [hbase, List.count, List.countP_map, List.countP_eq_length_filter,
      List.filter_filter]
    congr 1
    apply List.filter_congr
    intro e _
    by_cases ht : e.toId = j
    · simp [ht, hj]
    · simp [ht]
  have hgid : ∀ j : Nat, j ∈ groupIds ↔ (j ∈ base ∧ 2 ≤ base.count j) := by
    intro j
    rw [hgroupIds, List.mem_map]
    constructor
    · rintro ⟨⟨a, n⟩, hp, rfl⟩
      obtain ⟨h2, h3⟩ := List.mem_filter.mp ((hcand_mem (a, n)).mp hp)
      obtain ⟨h4, h5⟩ := mem_collectCounts.mp h2
      rw [decide_eq_true_eq] at h3
      subst h5
      exact ⟨h4, h3⟩
    · rintro ⟨h1, h2⟩
      exact ⟨(j, base.count j), (hcand_mem _).mpr (List.mem_filter.mpr
        ⟨mem_collectCounts.mpr ⟨h1, rfl⟩, decide_eq_true h2⟩), rfl⟩
  have hbase2_mem : ∀ j : Nat, j ∈ base → j ∈ groupIds → j ∈ base2 := by
    intro j hjb hjg
    obtain ⟨e, he, heq⟩ := List.mem_map.mp hjb
    refine List.mem_map.mpr ⟨e, List.mem_filter.mpr
      ⟨(List.mem_filter.mp he).1, decide_eq_true ?_⟩, heq⟩
    rw [heq]
    exact hjg
  have hbase2_count : ∀ j : Nat, j ∈ groupIds →
      base2.count j = (db.usersInGroups.filter
        (fun e => decide (e.toId = j))).length := by
    intro j hj
    rw [hbase2, List.count, List.countP_map, List.countP_eq_length_filter,
      List.filter_filter]
    congr 1
    apply List.filter_congr
    intro e _
    by_cases ht : e.toId = j
    · simp [ht, hj]
    · simp [ht]
  have hfind : ∀ j : Nat, (collectCounts base2).find? (fun row => row.1 == j)
      = if j ∈ base2.dedup then some (j, base2.count j) else none := by
    intro j
    unfold collectCounts
    exact find?_keyed base2.count base2.dedup j
  rw [List.mem_map]
  constructor
  · rintro ⟨⟨a, n⟩, hpf, hfst⟩
    obtain ⟨hpc, hpred⟩ := List.mem_filter.mp hpf
    cases hfst
    obtain ⟨h2, h3⟩ := List.mem_filter.mp ((hcand_mem (a, n)).mp hpc)
    obtain ⟨hkb, hn⟩ := mem_collectCounts.mp h2
    rw [decide_eq_true_eq] at h3
    have hkcur : a ∉ currentGroups := hbase_notin a hkb
    have hkg : a ∈ groupIds := (hgid a).mpr ⟨hkb, by rw [← hn]; exact h3⟩
    have hk2 : a ∈ base2.dedup := List.mem_dedup.mpr (hbase2_mem a hkb hkg)
    rw [hfind a, if_pos hk2, Option.map_some'] at hpred
    rw [decide_eq_true_eq] at hpred
    refine ⟨hkcur, ?_, ?_⟩
    · rw [← hbase_count a hkcur, ← hn]
      exact h3
    · rw [← hbase_count a hkcur, ← hn]
      rw [hbase2_count a hkg] at hpred
      exact hpred
  · rintro ⟨hkcur, h2, hgt⟩
    have hcnt : base.count k = (db.usersInGroups.filter
        (fun e => decide (e.toId = k ∧ e.fromId ∈ connections))).length :=
      hbase_count k hkcur
    have hkb : k ∈ base := List.count_pos_iff.mp (by rw [hcnt]; omega)
    have h2c : 2 ≤ base.count k := by
      rw [hcnt]
      exact h2
    have hkg : k ∈ groupIds := (hgid k).mpr ⟨hkb, h2c⟩
    have hk2 : k ∈ base2.dedup := List.mem_dedup.mpr (hbase2_mem k hkb hkg)
    refine ⟨(k, base.count k), List.mem_filter.mpr
      ⟨(hcand_mem _).mpr (List.mem_filter.mpr
        ⟨mem_collectCounts.mpr ⟨hkb, rfl⟩, decide_eq_true h2c⟩), ?_⟩, rfl⟩
    rw [hfind k, if_pos hk2, Option.map_some']
    rw [hbase2_count k hkg, hcnt]
    exact decide_eq_true (by omega)

/-- C9: `userEligibleGroups` returns exactly the Established groups outside
`excludeGroups` with at least 2 of the connections as members that pass the
strict-majority rule against the current member count — but in the groups
collection's storage order, not ranked by descending matching count. -/
theorem c9_eligible_groups (db : DB) (userId : String) (connections : List String)
    (currentGroups : List Nat)
    (hnd : (db.usersInGroups.map (fun e => (e.fromId, e.toId))).Nodup) :
    (userEligibleGroups db userId connections currentGroups).map (fun g => g.id)
      = (db.groups.filter (fun g =>
          decide (g.key ∉ currentGroups) &&
          decide (2 ≤ (matchingMembers db connections g.key).length) &&
          decide (2 * (matchingMembers db connections g.key).length
            > (groupMembers db g.key false).length))).map (fun g => g.key) := by
  rw [userEligibleGroups_eq]
  show ((db.groups.filter (fun g => decide (g.key ∈ eligiblesOf db connections
      currentGroups))).map (fun g => groupToDic db g
        (((((db.usersInGroups.filter (fun m => decide (m.toId = g.key ∧
          m.fromId ∈ connections))).take 3).map (fun x => x.fromId)).dedup)
        ++ ((db.usersInGroups.filter (fun m => decide (m.toId = g.key ∧
          m.fromId = userId))).take 1).map (fun x => x.fromId)))).map (fun g => g.id) = _
  rw [List.map_map]
  rw [List.map_congr_left (fun g _ => (rfl : g.key = _))]
  congr 1
  apply List.filter_congr
  intro g _
  rw [← Bool.decide_and, ← Bool.decide_and, decide_eq_decide, mem_eligiblesOf]
  obtain ⟨e1, e2⟩ := member_lengths db connections g.key hnd
  rw [e1, e2]
  exact ⟨fun h => ⟨⟨h.1, h.2.1⟩, by omega⟩, fun h => ⟨h.1.1, h.1.2, by omega⟩⟩


/-- C9 counterexample: in `dbC9` both groups qualify, group 1 with 2 matching
members and group 2 with 3, yet the result follows the groups collection's
storage order [1, 2], so the matching counts come out ascending — not the
claimed descending matching-count order. -/
theorem c9_counterexample :
    ((userEligibleGroups dbC9 "u" ["x", "y", "z"] []).map (fun g => g.id) = [1, 2])
      ∧ (matchingMembers dbC9 ["x", "y", "z"] 1).length = 2
      ∧ (matchingMembers dbC9 ["x", "y", "z"] 2).length = 3
      ∧ ¬ ((userEligibleGroups dbC9 "u" ["x", "y", "z"] []).map
          (fun g => (matchingMembers dbC9 ["x", "y", "z"] g.id).length)).Pairwise
            (fun a b => b ≤ a) := by
  decide

/-- C9 witness: the amended description applied to the concrete `dbC9`. -/
theorem c9_eligible_groups_witness :
    (userEligibleGroups dbC9 "u" ["x", "y", "z"] []).map (fun g => g.id)
      = (dbC9.groups.filter (fun g =>
          decide (g.key ∉ ([] : List Nat)) &&
          decide (2 ≤ (matchingMembers dbC9 ["x", "y", "z"] g.key).length) &&
          decide (2 * (matchingMembers dbC9 ["x", "y", "z"] g.key).length
            > (groupMembers dbC9 g.key false).length))).map (fun g => g.key) :=
  c9_eligible_groups dbC9 "u" ["x", "y", "z"] [] (by decide)

end BrightId
